import Mathlib

/-!
Verification development for the gherkin feature-file library.

Rust strings are modelled as lists of characters (`Str`); all string
primitives used by the source (trimming, ASCII lowercasing, splitting,
prefix tests, `str::replace`, `str::lines`) are defined below and the
parser, lexer and outline expander are translated function by function
from the Rust source.  Loops that are not structurally recursive take a
fuel argument; every call site passes more fuel than the loop can
consume (each iteration of every loop removes at least one line or
token), so the out-of-fuel branches are unreachable.
-/

set_option maxRecDepth 10000

/-- Rust strings and string slices, modelled as lists of characters. -/
abbrev Str := List Char

/-- ASCII whitespace per Rust `char::is_ascii_whitespace`: space, tab,
newline, form feed, carriage return. -/
def isAsciiWs (c : Char) : Bool :=
  c = ' ' || c = '\t' || c = '\n' || c = '\x0c' || c = '\r'

/-- Whitespace as recognised by Rust `str::trim` (`char::is_whitespace`),
modelled on its ASCII fragment; the non-ASCII Unicode space characters do
not occur in any input considered here. -/
def isUniWs (c : Char) : Bool :=
  c = ' ' || c = '\t' || c = '\n' || c = '\x0b' || c = '\x0c' || c = '\r'

/-- Rust `str::trim_start`. -/
def trimStartL (s : Str) : Str := s.dropWhile isUniWs

/-- Rust `str::trim_end`. -/
def trimEndL (s : Str) : Str := (s.reverse.dropWhile isUniWs).reverse

/-- Rust `str::trim`. -/
def trimL (s : Str) : Str := trimEndL (trimStartL s)

/-- Rust `char::to_ascii_lowercase`: shift only the ASCII uppercase range. -/
def asciiLower (c : Char) : Char :=
  if 'A' ≤ c ∧ c ≤ 'Z' then Char.ofNat (c.toNat + 32) else c

/-- Rust `str::to_ascii_lowercase` (also used to model `str::to_lowercase`,
whose behaviour only differs outside ASCII). -/
def lowerL (s : Str) : Str := s.map asciiLower

/-- Rust `str::starts_with` on string patterns. -/
def startsWithL (s p : Str) : Bool := p.isPrefixOf s

/-- Rust `str::ends_with(':')` as used by the keyword classifier. -/
def endsWithColon (s : Str) : Bool := s.getLast? = some ':'

/-- Drop one trailing carriage return, as Rust `str::lines` does. -/
def stripCR (l : Str) : Str := if l.getLast? = some '\r' then l.dropLast else l

/-- Rust `str::lines`: split on newline; a final trailing newline does not
produce an extra empty line; a trailing carriage return is stripped. -/
def rsLines (s : Str) : List Str :=
  if s = [] then []
  else
    let parts := s.splitOn '\n'
    let parts := if s.getLast? = some '\n' then parts.dropLast else parts
    parts.map stripCR

/-- Fuel-driven worker for `replaceL`; fuel always exceeds the length of
the scanned string at every call, so the `0` branch is unreachable. -/
def replaceGo (pat rep : Str) : Nat → Str → Str
  | 0, _ => []
  | _ + 1, [] => []
  | fuel + 1, c :: rest =>
    if pat.isPrefixOf (c :: rest) then
      rep ++ replaceGo pat rep fuel ((c :: rest).drop pat.length)
    else
      c :: replaceGo pat rep fuel rest

/-- Rust `str::replace`: replace every non-overlapping occurrence of `pat`,
scanning left to right.  (The source never calls it with an empty pattern;
that case is modelled as the identity.) -/
def replaceL (s pat rep : Str) : Str :=
  if pat = [] then s else replaceGo pat rep (s.length + 1) s

/-- Rust `usize` rendering used in one error message. -/
def natToStr (n : Nat) : Str := (Nat.repr n).data

/-! ## src/gherkin/src/data_table.rs -/

/-- `DataTable` from src/gherkin/src/data_table.rs; the `header()` and
`rows()` accessors are the field projections. -/
structure DataTable where
  header : List Str
  rows : List (List Str)
deriving DecidableEq, Inhabited

/-- `DataTable::new`. -/
def DataTable.new (header : List Str) : DataTable := ⟨header, []⟩

/-- `DataTable::new_populated`. -/
def DataTable.new_populated (header : List Str) (rows : List (List Str)) :
    Option DataTable :=
  if rows.any (fun r => r.length != header.length) then none
  else some ⟨header, rows⟩

/-- `DataTable::add_row`.  Rust takes `&mut self` and returns
`Result<(), ()>`; modelled as returning the result together with the
post-state of the table.  The `Err` branch performs no mutation, so the
table is returned unchanged there. -/
def DataTable.add_row (t : DataTable) (row : List Str) :
    Except Unit Unit × DataTable :=
  if row.length = t.header.length then
    (Except.ok (), ⟨t.header, t.rows ++ [row]⟩)
  else
    (Except.error (), t)

/-- Tables reachable through the three constructors of
src/gherkin/src/data_table.rs: `new`, a successful `new_populated`, and
the post-state of any `add_row` call on a reachable table. -/
inductive ReachableTable : DataTable → Prop
  | mkNew (h : List Str) : ReachableTable (DataTable.new h)
  | mkPop (h : List Str) (r : List (List Str)) (t : DataTable) :
      DataTable.new_populated h r = some t → ReachableTable t
  | mkAdd (t : DataTable) (row : List Str) (t' : DataTable)
      (res : Except Unit Unit) :
      ReachableTable t → t.add_row row = (res, t') → ReachableTable t'

/-- C5: `new_populated(header, rows)` succeeds, returning exactly the
given header and rows, if and only if every row's length equals the
header's length; any row of differing length makes it return `None`. -/
theorem c5_new_populated_roundtrip (header : List Str)
    (rows : List (List Str)) :
    (DataTable.new_populated header rows
        = some { header := header, rows := rows }
      ↔ ∀ r ∈ rows, r.length = header.length)
    ∧ (DataTable.new_populated header rows = none
      ↔ ∃ r ∈ rows, r.length ≠ header.length) := by
  unfold DataTable.new_populated
  by_cases h : rows.any (fun r => r.length != header.length)
  · rw [if_pos h]
    simp only [List.any_eq_true, bne_iff_ne, ne_eq] at h
    obtain ⟨r, hr, hne⟩ := h
    constructor
    · constructor
      · intro hcontra; cases hcontra
      · intro hall; exact absurd (hall r hr) hne
    · constructor
      · intro _; exact ⟨r, hr, hne⟩
      · intro _; rfl
  · rw [if_neg h]
    simp only [List.any_eq_true, bne_iff_ne, ne_eq, not_exists, not_and,
      not_not] at h
    constructor
    · constructor
      · intro _; exact h
      · intro _; rfl
    · constructor
      · intro hcontra; cases hcontra
      · intro ⟨r, hr, hne⟩; exact absurd (h r hr) hne

/-- Closed instance of `c5_new_populated_roundtrip`. -/
theorem c5_witness :
    DataTable.new_populated ["h1".data, "h2".data]
        [["a".data, "b".data], ["c".data, "d".data]]
      = some { header := ["h1".data, "h2".data],
               rows := [["a".data, "b".data], ["c".data, "d".data]] }
    ∧ DataTable.new_populated ["h1".data, "h2".data] [["a".data]] = none := by
  refine ⟨?_, ?_⟩
  · exact (c5_new_populated_roundtrip _ _).1.mpr (by decide)
  · exact (c5_new_populated_roundtrip ["h1".data, "h2".data]
      [["a".data]]).2.mpr (by decide)

/-- C8: `add_row` with a row whose length differs from the header length
returns `Err` and leaves the table unchanged, and every table reachable
through `new`, `new_populated` and `add_row` has only rows whose length
equals the header length. -/
theorem c8_add_row_invariant :
    (∀ (t : DataTable) (row : List Str), row.length ≠ t.header.length →
        t.add_row row = (Except.error (), t))
    ∧ (∀ t : DataTable, ReachableTable t →
        ∀ r ∈ t.rows, r.length = t.header.length) := by
  constructor
  · intro t row hne
    unfold DataTable.add_row
    rw [if_neg hne]
  · intro t hreach
    induction hreach with
    | mkNew h => intro r hr; cases hr
    | mkPop h rws t hpop =>
      unfold DataTable.new_populated at hpop
      by_cases hany : rws.any (fun r => r.length != h.length)
      · rw [if_pos hany] at hpop; cases hpop
      · rw [if_neg hany] at hpop
        cases hpop
        simp only [List.any_eq_true, bne_iff_ne, ne_eq, not_exists, not_and,
          not_not] at hany
        exact hany
    | mkAdd t row t' res _ hadd ih =>
      unfold DataTable.add_row at hadd
      by_cases hlen : row.length = t.header.length
      · rw [if_pos hlen] at hadd
        cases hadd
        intro r hr
        simp only [List.mem_append, List.mem_singleton] at hr
        cases hr with
        | inl hmem => exact ih r hmem
        | inr heq => cases heq; exact hlen
      · rw [if_neg hlen] at hadd
        cases hadd
        exact ih

/-- Closed instance of `c8_add_row_invariant`. -/
theorem c8_witness :
    DataTable.add_row
        ((DataTable.new_populated ["h".data] [["x".data]]).getD default)
        ["y".data, "z".data]
      = (Except.error (),
         (DataTable.new_populated ["h".data] [["x".data]]).getD default)
    ∧ ([ "x".data ] : List Str).length
        = (DataTable.mk ["h".data] [["x".data]]).header.length := by
  refine ⟨?_, ?_⟩
  · exact c8_add_row_invariant.1 _ _ (by decide)
  · exact c8_add_row_invariant.2 (DataTable.mk ["h".data] [["x".data]])
      (ReachableTable.mkPop ["h".data] [["x".data]]
        (DataTable.mk ["h".data] [["x".data]]) (by decide))
      ["x".data] (by decide)

/-! ## Crate-root data model

The steady-state crate root used by src/gherkin/src/parser/mod.rs and
src/gherkin/src/scenario_outline.rs (the `StepType`, `StepData`, `Step`,
`Scenario` and `Feature` definitions with tags and descriptions) is not
among the provided source files; only an older superseded draft of
lib.rs is.  The definitions below are modelled from the spec (section 3)
and from their uses in the two files that consume them. -/

/-- `StepType` from the crate root (spec section 3). -/
inductive StepType
  | Given | When | Then | And | But | Asterisk
deriving DecidableEq, Inhabited

/-- Modelled from the spec: `StepData` (section 3), either doc-string
text or a data table, as constructed in parser/mod.rs `match_steps`. -/
inductive StepData
  | DocString (s : Str)
  | DataTable (t : DataTable)
deriving DecidableEq, Inhabited

/-- Modelled from the spec: `StepData::replace`, called by
`ScenarioOutline::scenarios` on step data.  Substitution applies inside
doc-string data; substitution into data-table step data is explicitly
unsupported (spec sections 4.5 and 9 flag it as an unresolved `todo` in
the source) and is modelled as leaving the table unchanged. -/
def StepData.replace (d : StepData) (pat rep : Str) : StepData :=
  match d with
  | .DocString s => .DocString (replaceL s pat rep)
  | .DataTable t => .DataTable t

/-- Modelled from the spec: `Step` (section 3): the step type as written,
a description, and optional attached data. -/
structure Step where
  ty : StepType
  description : Str
  data : Option StepData
deriving DecidableEq, Inhabited

/-- Modelled from the spec: `Step::new`, the constructor called by
parser/mod.rs and scenario_outline.rs with type, description and data. -/
def Step.new (ty : StepType) (description : Str) (data : Option StepData) :
    Step :=
  ⟨ty, description, data⟩

/-- Modelled from the spec: `Scenario` (section 3). -/
structure Scenario where
  tags : List Str
  name : Option Str
  description : Option Str
  steps : List Step
deriving DecidableEq, Inhabited

/-! ## src/gherkin/src/scenario_outline.rs -/

/-- `TaggedScenarios` from src/gherkin/src/scenario_outline.rs. -/
structure TaggedScenarios where
  tags : List Str
  placeholders : List Str
  values : List (List Str)
deriving DecidableEq, Inhabited

/-- `TaggedScenarios::new`: construction fails (with an empty message)
unless every row's length equals the placeholder count. -/
def TaggedScenarios.new (tags placeholders : List Str)
    (values : List (List Str)) : Except Str TaggedScenarios :=
  if values.all (fun v => v.length == placeholders.length) then
    Except.ok ⟨tags, placeholders, values⟩
  else
    Except.error []

/-- `ScenarioOutline` from src/gherkin/src/scenario_outline.rs. -/
structure ScenarioOutline where
  tags : List Str
  name : Option Str
  description : Option Str
  steps : List Step
  scenarios : List TaggedScenarios
deriving DecidableEq, Inhabited

/-- The marker string built by `format!("<{placeholder}>")`. -/
def phMarker (p : Str) : Str := '<' :: (p ++ ['>'])

/-- One `(placeholder, cell)` substitution applied to a step: replace the
marker in the description and, when present, in the step data
(src/gherkin/src/scenario_outline.rs lines 58-64). -/
def substOne (mark cell : Str) (st : Step) : Step :=
  { st with
    description := replaceL st.description mark cell,
    data := st.data.map (fun d => d.replace mark cell) }

/-- The per-step substitution loop of `ScenarioOutline::scenarios`
(src/gherkin/src/scenario_outline.rs lines 55-67): for each indexed cell
of the row, substitute `<placeholders[idx]>` by the cell value.  Rust
indexes `s.placeholders[idx]` and would panic were the row longer than
the placeholder list; this is modelled with `getD`, and the row-length
invariant appears as a hypothesis on the theorems where it matters. -/
def substStep (placeholders : List Str) (row : List Str) (step : Step) :
    Step :=
  row.enum.foldl
    (fun st p => substOne (phMarker (placeholders.getD p.1 [])) p.2 st)
    step

/-- The `Scenario` produced for one example block and one of its rows
(src/gherkin/src/scenario_outline.rs lines 69-74): the block's tags, the
outline's name and description, and the substituted template steps. -/
def mkScenarioOf (o : ScenarioOutline) (s : TaggedScenarios)
    (row : List Str) : Scenario :=
  { tags := s.tags
    name := o.name
    description := o.description
    steps := o.steps.map (substStep s.placeholders row) }

/-- `ScenarioOutline::scenarios` collected into a list: `flat_map` over
the example blocks in declaration order, and within each block `map`
over its rows in declaration order. -/
def ScenarioOutline.scenariosList (o : ScenarioOutline) : List Scenario :=
  o.scenarios.flatMap fun s => s.values.map (mkScenarioOf o s)

/-- State of the lazy iterator returned by `ScenarioOutline::scenarios`:
the outline being read, the block currently being expanded with its
remaining rows (the inner `map` iterator), and the remaining blocks (the
outer `flat_map` iterator). -/
structure OutlineIter where
  outline : ScenarioOutline
  current : Option (TaggedScenarios × List (List Str))
  rest : List TaggedScenarios
deriving DecidableEq

/-- Advance the outer `flat_map` iterator past exhausted blocks until a
row can be yielded. -/
def OutlineIter.advance (o : ScenarioOutline) :
    List TaggedScenarios → Option (Scenario × OutlineIter)
  | [] => none
  | s :: rest =>
    match s.values with
    | [] => OutlineIter.advance o rest
    | row :: rows =>
      some (mkScenarioOf o s row, ⟨o, some (s, rows), rest⟩)

/-- One `next()` call of the lazy iterator. -/
def OutlineIter.next : OutlineIter → Option (Scenario × OutlineIter)
  | ⟨o, some (s, row :: rows), rest⟩ =>
    some (mkScenarioOf o s row, ⟨o, some (s, rows), rest⟩)
  | ⟨o, some (_, []), rest⟩ => OutlineIter.advance o rest
  | ⟨o, none, rest⟩ => OutlineIter.advance o rest

/-- A fresh iterator as produced by calling `scenarios()`. -/
def OutlineIter.init (o : ScenarioOutline) : OutlineIter := ⟨o, none, o.scenarios⟩

/-- Drain the iterator, with fuel (one unit per yielded scenario). -/
def OutlineIter.collect : Nat → OutlineIter → List Scenario
  | 0, _ => []
  | fuel + 1, it =>
    match it.next with
    | none => []
    | some (sc, it') => sc :: OutlineIter.collect fuel it'

/-- Total number of rows across the example blocks, bounding the number
of scenarios the iterator can yield. -/
def outlineRowCount (blocks : List TaggedScenarios) : Nat :=
  (blocks.map (fun s => s.values.length)).sum

@[simp] theorem outlineRowCount_nil : outlineRowCount [] = 0 := rfl

@[simp] theorem outlineRowCount_cons (s : TaggedScenarios)
    (rest : List TaggedScenarios) :
    outlineRowCount (s :: rest) = s.values.length + outlineRowCount rest := by
  simp [outlineRowCount]

theorem OutlineIter.advance_outline (o : ScenarioOutline) :
    ∀ (rest : List TaggedScenarios) (sc : Scenario) (it' : OutlineIter),
      OutlineIter.advance o rest = some (sc, it') → it'.outline = o := by
  intro rest
  induction rest with
  | nil => intro sc it' h; cases h
  | cons s rest ih =>
    intro sc it' h
    cases hv : s.values with
    | nil =>
      rw [OutlineIter.advance, hv] at h
      exact ih sc it' h
    | cons r rs =>
      rw [OutlineIter.advance, hv] at h
      cases h
      rfl

theorem OutlineIter.collect_cur (o : ScenarioOutline) (s : TaggedScenarios)
    (rest : List TaggedScenarios)
    (hrec : ∀ g, outlineRowCount rest < g →
      OutlineIter.collect g ⟨o, none, rest⟩
        = rest.flatMap fun b => b.values.map (mkScenarioOf o b)) :
    ∀ (rows : List (List Str)) (f : Nat),
      rows.length + outlineRowCount rest < f →
      OutlineIter.collect f ⟨o, some (s, rows), rest⟩
        = rows.map (mkScenarioOf o s)
          ++ rest.flatMap fun b => b.values.map (mkScenarioOf o b) := by
  intro rows
  induction rows with
  | nil =>
    intro f hf
    match f, hf with
    | g + 1, hf =>
      have heq : OutlineIter.collect (g + 1) ⟨o, some (s, []), rest⟩
          = OutlineIter.collect (g + 1) ⟨o, none, rest⟩ := rfl
      rw [heq, hrec (g + 1) (by omega)]
      simp
  | cons r rs ih =>
    intro f hf
    match f, hf with
    | g + 1, hf =>
      have heq : OutlineIter.collect (g + 1) ⟨o, some (s, r :: rs), rest⟩
          = mkScenarioOf o s r
              :: OutlineIter.collect g ⟨o, some (s, rs), rest⟩ := rfl
      rw [heq, ih g (by simp at hf; omega)]
      simp

theorem OutlineIter.collect_none (o : ScenarioOutline) :
    ∀ (rest : List TaggedScenarios) (f : Nat), outlineRowCount rest < f →
      OutlineIter.collect f ⟨o, none, rest⟩
        = rest.flatMap fun b => b.values.map (mkScenarioOf o b) := by
  intro rest
  induction rest with
  | nil =>
    intro f hf
    match f, hf with
    | g + 1, _ => rfl
  | cons s rest ih =>
    intro f hf
    match f, hf with
    | g + 1, hf =>
      cases hv : s.values with
      | nil =>
        have heq : OutlineIter.collect (g + 1) ⟨o, none, s :: rest⟩
            = OutlineIter.collect (g + 1) ⟨o, none, rest⟩ := by
          show (match OutlineIter.advance o (s :: rest) with
                | none => []
                | some (sc, it') => sc :: OutlineIter.collect g it')
            = _
          rw [OutlineIter.advance, hv]
          rfl
        rw [heq, ih (g + 1) (by simp at hf; omega)]
        simp [hv]
      | cons r rs =>
        have heq : OutlineIter.collect (g + 1) ⟨o, none, s :: rest⟩
            = mkScenarioOf o s r
                :: OutlineIter.collect g ⟨o, some (s, rs), rest⟩ := by
          show (match OutlineIter.advance o (s :: rest) with
                | none => []
                | some (sc, it') => sc :: OutlineIter.collect g it')
            = _
          rw [OutlineIter.advance, hv]
        rw [heq,
          OutlineIter.collect_cur o s rest (fun g hg => ih g hg) rs g
            (by simp [hv] at hf; omega)]
        simp [hv]

/-- C9: draining the iterator returned by `scenarios()` from a fresh
start always yields the same sequence, element-wise equal to the pure
`flat_map`/`map` expansion of the outline's immutable data, and no
`next()` call modifies the outline being read. -/
theorem c9_scenarios_restartable (o : ScenarioOutline) :
    List.Forall₂ (fun a b => a = b)
      (OutlineIter.collect (outlineRowCount o.scenarios + 1)
        (OutlineIter.init o))
      (OutlineIter.collect (outlineRowCount o.scenarios + 1)
        (OutlineIter.init o))
    ∧ OutlineIter.collect (outlineRowCount o.scenarios + 1)
        (OutlineIter.init o) = o.scenariosList
    ∧ (∀ (it it' : OutlineIter) (sc : Scenario),
        it.next = some (sc, it') → it'.outline = it.outline) := by
  refine ⟨List.forall₂_same.mpr (fun x _ => rfl), ?_, ?_⟩
  · exact OutlineIter.collect_none o o.scenarios _ (Nat.lt_succ_self _)
  · intro it it' sc h
    match it with
    | ⟨o', some (s, r :: rs), rest⟩ => cases h; rfl
    | ⟨o', some (s, []), rest⟩ =>
      exact OutlineIter.advance_outline o' rest sc it' h
    | ⟨o', none, rest⟩ =>
      exact OutlineIter.advance_outline o' rest sc it' h

/-- Concrete outline, iterator states and scenario for the closed
instance of `c9_scenarios_restartable`. -/
def w9Outline : ScenarioOutline := ⟨[], none, none, [], [⟨[], [], [[]]⟩]⟩

def w9It : OutlineIter := ⟨w9Outline, some (⟨[], [], [[]]⟩, [[]]), []⟩

def w9It' : OutlineIter := ⟨w9Outline, some (⟨[], [], [[]]⟩, []), []⟩


/-- Closed instance of `c9_scenarios_restartable`. -/
theorem c9_witness :
    w9It.next = some (mkScenarioOf w9Outline ⟨[], [], [[]]⟩ [], w9It')
    ∧ w9It'.outline = w9It.outline := by
  refine ⟨rfl, ?_⟩
  exact (c9_scenarios_restartable w9Outline).2.2 w9It w9It'
    (mkScenarioOf w9Outline ⟨[], [], [[]]⟩ []) rfl

/-- Number of scenarios produced by the example blocks before block `i`
(the starting position of block `i`'s scenarios in the expansion). -/
def blockOffset (o : ScenarioOutline) (i : Nat) : Nat :=
  ((o.scenarios.take i).map (fun s => s.values.length)).sum

theorem flatMap_values_index (o : ScenarioOutline) :
    ∀ (L : List TaggedScenarios) (i j : Nat) (hi : i < L.length)
      (hj : j < (L.get ⟨i, hi⟩).values.length),
      (L.flatMap fun s => s.values.map (mkScenarioOf o s))[
          ((L.take i).map (fun s => s.values.length)).sum + j]?
        = some (mkScenarioOf o (L.get ⟨i, hi⟩)
            ((L.get ⟨i, hi⟩).values.get ⟨j, hj⟩)) := by
  intro L
  induction L with
  | nil => intro i j hi hj; cases hi
  | cons s L ih =>
    intro i j hi hj
    cases i with
    | zero =>
      have hj' : j < s.values.length := by simpa using hj
      simp only [List.take_zero, List.map_nil, List.sum_nil, Nat.zero_add,
        List.flatMap_cons]
      rw [List.getElem?_append_left (by simpa using hj')]
      simp only [List.getElem?_map, List.get_cons_zero]
      rw [List.getElem?_eq_getElem hj']
      simp [List.get_eq_getElem]
    | succ i' =>
      simp only [List.take_succ_cons, List.map_cons, List.sum_cons,
        List.flatMap_cons]
      rw [List.getElem?_append_right]
      · have harith : s.values.length
            + (((L.take i').map (fun s => s.values.length)).sum + j)
            - (s.values.map (mkScenarioOf o s)).length
            = ((L.take i').map (fun s => s.values.length)).sum + j := by
          simp
        rw [Nat.add_assoc, harith]
        exact ih i' j (Nat.lt_of_succ_lt_succ hi) hj
      · simp; omega

/-- C3: the expansion of a scenario outline yields exactly one scenario
per (example block, row) pair: its length is the total row count, and
the scenario at position `blockOffset o i + j` is built from block `i`
and its row `j`, carrying that block's tags and the outline's name and
description (the fields of `mkScenarioOf`). -/
theorem c3_scenarios_ordering (o : ScenarioOutline) :
    o.scenariosList.length = (o.scenarios.map (fun s => s.values.length)).sum
    ∧ ∀ (i j : Nat) (hi : i < o.scenarios.length)
        (hj : j < (o.scenarios.get ⟨i, hi⟩).values.length),
        o.scenariosList[blockOffset o i + j]?
          = some { tags := (o.scenarios.get ⟨i, hi⟩).tags
                   name := o.name
                   description := o.description
                   steps := o.steps.map
                     (substStep (o.scenarios.get ⟨i, hi⟩).placeholders
                       ((o.scenarios.get ⟨i, hi⟩).values.get ⟨j, hj⟩)) } := by
  constructor
  · simp [ScenarioOutline.scenariosList, List.length_flatMap,
      Function.comp_def]
  · intro i j hi hj
    exact flatMap_values_index o o.scenarios i j hi hj

/-- Concrete two-block outline for the closed instance of
`c3_scenarios_ordering`. -/
def w3Outline : ScenarioOutline :=
  { tags := []
    name := some "o".data
    description := none
    steps := [Step.new StepType.Given "have <n>".data none]
    scenarios :=
      [⟨["x".data], ["n".data], [["1".data], ["2".data]]⟩,
       ⟨["y".data], ["n".data], [["3".data]]⟩] }

/-- Closed instance of `c3_scenarios_ordering`: in a two-block outline
with two rows then one row, position `blockOffset 1 + 0 = 2` holds the
expansion of the second block's only row, with that block's tags. -/
theorem c3_witness :
    w3Outline.scenariosList[blockOffset w3Outline 1 + 0]?
      = some { tags := ["y".data]
               name := some "o".data
               description := none
               steps := [Step.new StepType.Given "have 3".data none] } := by
  have h := (c3_scenarios_ordering w3Outline).2 1 0 (by decide) (by decide)
  rw [h]
  decide

theorem substStep_enumFrom_zip (ph : List Str) :
    ∀ (row : List Str) (k : Nat) (st : Step),
      row.length = (ph.drop k).length →
      (List.enumFrom k row).foldl
          (fun st p => substOne (phMarker (ph.getD p.1 [])) p.2 st) st
        = ((ph.drop k).zip row).foldl
            (fun st pc => substOne (phMarker pc.1) pc.2 st) st := by
  intro row
  induction row with
  | nil =>
    intro k st h
    have : ph.drop k = [] := by
      cases hdk : ph.drop k with
      | nil => rfl
      | cons a t => rw [hdk] at h; simp at h
    simp [this]
  | cons c cs ih =>
    intro k st h
    cases hdk : ph.drop k with
    | nil => rw [hdk] at h; simp at h
    | cons a t =>
      have ha : ph.getD k [] = a := by
        have hget : ph[k]? = some a := by
          have hdrop := List.getElem?_drop ph k 0
          rw [hdk] at hdrop
          simpa using hdrop.symm
        simp [List.getD_eq_getElem?_getD, hget]
      have ht : t = ph.drop (k + 1) := by
        have htail := List.tail_drop ph k
        rw [hdk] at htail
        simpa using htail
      have hlen : cs.length = (ph.drop (k + 1)).length := by
        rw [hdk] at h
        simp at h
        rw [← ht, ← h]
      simp only [List.enumFrom_cons, List.zip_cons_cons, List.foldl_cons, ha]
      rw [ht]
      exact ih (k + 1) _ hlen

/-- Outline from the spec's substitution example: a step description with
a placeholder and a doc-string containing the same placeholder twice. -/
def w4Outline : ScenarioOutline :=
  { tags := []
    name := none
    description := none
    steps :=
      [Step.new StepType.Given "some <text>".data none,
       Step.new StepType.Then "the following text".data
         (some (StepData.DocString "The text <text> and <text> again".data))]
    scenarios := [⟨[], ["text".data], [["hihi".data]]⟩] }

/-- Expected expansion of `w4Outline`. -/
def w4Expected : Scenario :=
  { tags := []
    name := none
    description := none
    steps :=
      [Step.new StepType.Given "some hihi".data none,
       Step.new StepType.Then "the following text".data
         (some (StepData.DocString "The text hihi and hihi again".data))] }

/-- C4: expansion substitutes placeholders by literal substring
replacement, matching cells to placeholders by column index: with a
single column it is exactly `replaceL` of `<placeholder>` in description
and step data; in general (rows as long as the placeholder list) it is
the pairwise fold of `replaceL` over the zipped (placeholder, cell)
pairs; and the spec's instance `"some <text>"` with `text="hihi"` yields
`"some hihi"`, substituting identically inside the doc-string at every
occurrence. -/
theorem c4_placeholder_substitution :
    (∀ (p v : Str) (step : Step),
        substStep [p] [v] step
          = { step with
              description := replaceL step.description (phMarker p) v
              data := step.data.map (fun d => d.replace (phMarker p) v) })
    ∧ (∀ (ph row : List Str) (step : Step), row.length = ph.length →
        substStep ph row step
          = (ph.zip row).foldl
              (fun st pc => substOne (phMarker pc.1) pc.2 st) step)
    ∧ w4Outline.scenariosList = [w4Expected] := by
  refine ⟨?_, ?_, ?_⟩
  · intro p v step; rfl
  · intro ph row step h
    have hz := substStep_enumFrom_zip ph row 0 step (by simpa using h)
    simpa [substStep, List.enum] using hz
  · decide

/-- Closed instance of `c4_placeholder_substitution`. -/
theorem c4_witness :
    substStep ["a".data, "b".data] ["x".data, "y".data]
        (Step.new StepType.Given "<a> and <b>".data none)
      = (((["a".data, "b".data] : List Str).zip
            (["x".data, "y".data] : List Str)).foldl
          (fun st pc => substOne (phMarker pc.1) pc.2 st)
          (Step.new StepType.Given "<a> and <b>".data none)) := by
  exact c4_placeholder_substitution.2.1 ["a".data, "b".data]
    ["x".data, "y".data] (Step.new StepType.Given "<a> and <b>".data none)
    (by decide)

/-! ## src/gherkin/src/parser/keyword.rs -/

/-- `Keyword` from src/gherkin/src/parser/keyword.rs. -/
inductive Keyword
  | Feature | Scenario | Background | ScenarioOutline | Scenarios
  | Given | When | Then | And | But | Asterisk
deriving DecidableEq, Inhabited

/-- `Keyword::has_colon`: section keywords require a colon, step keywords
never take one. -/
def Keyword.has_colon : Keyword → Bool
  | .Feature | .Scenario | .Background | .ScenarioOutline | .Scenarios => true
  | .Given | .When | .Then | .And | .But | .Asterisk => false

/-- `Keyword::combinations`: the priority-ordered spelling table. -/
def Keyword.combinations : List (Keyword × Str) :=
  [(.Scenarios, "examples".data),
   (.Scenarios, "scenarios".data),
   (.ScenarioOutline, "scenario outline".data),
   (.ScenarioOutline, "scenario template".data),
   (.Feature, "feature".data),
   (.Scenario, "example".data),
   (.Scenario, "scenario".data),
   (.Background, "background".data),
   (.Given, "given".data),
   (.When, "when".data),
   (.Then, "then".data),
   (.And, "and".data),
   (.But, "but".data),
   (.Asterisk, "*".data)]

/-- `Keyword::parse` (src/gherkin/src/parser/keyword.rs lines 52-81):
case-insensitively match the first spelling of the table that prefixes
the line; the character immediately after the spelling must be a colon
exactly when `has_colon` holds, or the line fails to classify; the
remainder is start-trimmed, and when it ends with a colon and stripping
is requested its last character is removed. -/
def Keyword.parse (line : Str) (strip_trailing_colon : Bool) :
    Option (Keyword × Str × Str × Bool) :=
  let lowercase := lowerL line
  match Keyword.combinations.find? (fun kv => startsWithL lowercase kv.2) with
  | none => none
  | some (keyword, start) =>
    let start_len := start.length
    let keyword_name := line.take start_len
    let leftover := line.drop start_len
    let has_colon := keyword.has_colon
    if has_colon ^^ startsWithL leftover [':'] then none
    else
      let leftover :=
        if has_colon then trimStartL (leftover.drop 1)
        else trimStartL leftover
      let last_is_colon := endsWithColon (trimEndL leftover)
      let leftover2 :=
        if last_is_colon && strip_trailing_colon then
          leftover.take (leftover.length - 1)
        else leftover
      some (keyword, keyword_name, leftover2, last_is_colon)

@[simp] theorem asciiLower_colon : asciiLower ':' = ':' := rfl

/-- The spellings of the six step keywords in the table. -/
def stepSpellings : List Str :=
  ["given".data, "when".data, "then".data, "and".data, "but".data, "*".data]

/-- C10: a line that begins with a step-keyword spelling (matched
case-insensitively) immediately followed by a colon fails to classify:
`Keyword::parse` returns `None`, because the presence of the immediate
colon disagrees with the step keyword's `has_colon` property. -/
theorem c10_step_keyword_requires_no_colon (w rest sp : Str) (strip : Bool)
    (hsp : sp ∈ stepSpellings) (hw : lowerL w = sp) :
    Keyword.parse (w ++ ':' :: rest) strip = none := by
  have hwlen : w.length = sp.length := by
    rw [← hw]; simp [lowerL]
  have hlow : lowerL (w ++ ':' :: rest) = sp ++ ':' :: lowerL rest := by
    simp [lowerL]
    exact hw
  have hdrop : (w ++ ':' :: rest).drop sp.length = ':' :: rest := by
    rw [← hwlen]
    exact List.drop_left _ _
  simp only [stepSpellings, List.mem_cons, List.not_mem_nil, or_false] at hsp
  rcases hsp with rfl | rfl | rfl | rfl | rfl | rfl <;>
    (simp only [List.length_cons, List.length_nil] at hdrop;
     simp [Keyword.parse, hlow, Keyword.combinations, List.find?,
       startsWithL, List.isPrefixOf, hdrop, Keyword.has_colon,
       List.cons_prefix_cons, List.nil_prefix])

/-- Closed instance of `c10_step_keyword_requires_no_colon`. -/
theorem c10_witness :
    Keyword.parse ("Given".data ++ ':' :: " x".data) false = none := by
  exact c10_step_keyword_requires_no_colon "Given".data " x".data
    "given".data false (by decide) (by decide)

/-! ## src/gherkin/src/parser/mod.rs -/

/-- Parser error: the message passed to `make_error`/`format_error`
together with the line number at which it was raised.  (`format_error`
renders the message followed by the source line at that number; the
rendering is presentation only, and it would panic when the number is
past the last line, so errors are modelled structurally.) -/
structure PErr where
  msg : Str
  lineNum : Nat
deriving DecidableEq, Inhabited

/-- `ParserInner`: `allLines` models the `text` field (split into lines
once and for all), `lines` the remaining suffix held by the peekable
iterator, `currentLine` the number of consumed lines.  `feature_name`
only feeds a conditionally compiled duplicate-step log message and is
carried along unused. -/
structure PState where
  allLines : List Str
  currentLine : Nat
  lines : List Str
  feature_name : Option Str
deriving DecidableEq, Inhabited

/-- `Iterator::next` for `ParserInner`: consume a line, counting it. -/
def PState.next (s : PState) : Option Str × PState :=
  match s.lines with
  | [] => (none, s)
  | l :: rest =>
    (some l, { s with currentLine := s.currentLine + 1, lines := rest })

/-- `make_error` at the current line. -/
def PState.mkErr (s : PState) (msg : Str) : PErr := ⟨msg, s.currentLine⟩

/-- Message of the error returned when a fuel counter runs out.  Every
fuel argument below exceeds the number of remaining lines plus one while
every loop iteration consumes at least one line, so no run can reach it. -/
def fuelMsg : Str := "out of fuel".data

/-- Worker for `take_empty_or_comment`: skip lines that are blank or
start (after leading whitespace) with `#`. -/
def takeEOCGo : Nat → List Str → Nat × List Str
  | cur, [] => (cur, [])
  | cur, l :: rest =>
    let trimmed := trimStartL l
    if !(startsWithL trimmed ['#']) && !(trimEndL trimmed).isEmpty then
      (cur, l :: rest)
    else
      takeEOCGo (cur + 1) rest

/-- `take_empty_or_comment`. -/
def PState.takeEmptyOrComment (s : PState) : PState :=
  let r := takeEOCGo s.currentLine s.lines
  { s with currentLine := r.1, lines := r.2 }

/-- The message of the invalid-tag error. -/
def invalidTagMsg (t : Str) : Str :=
  "Invalid tag ".data ++ t ++ " (does not start with '@')".data

/-- The per-piece loop of `try_tags`: every whitespace-separated piece
must start with `@` and is stored without it. -/
def collectTags : List Str → Except Str (List Str)
  | [] => .ok []
  | piece :: rest =>
    let t := trimL piece
    if startsWithL t ['@'] then
      match collectTags rest with
      | .ok ts => .ok (t.drop 1 :: ts)
      | .error e => .error e
    else
      .error (invalidTagMsg t)

/-- `try_tags` (src/gherkin/src/parser/mod.rs lines 67-100). -/
def PState.tryTags (s : PState) : Except PErr (List Str × PState) :=
  match s.lines with
  | [] => .ok ([], s)
  | l :: _ =>
    let trimmed := trimL l
    if !(startsWithL trimmed ['@']) then .ok ([], s)
    else
      match collectTags (trimmed.splitOn ' ') with
      | .error m => .error (s.mkErr m)
      | .ok tags =>
        let s := (s.next).2
        let s := s.takeEmptyOrComment
        if s.lines.isEmpty then
          .error (s.mkErr "Standalone tags are not allowed".data)
        else
          .ok (tags, s)

/-- `peek_kw_line` (lines 177-203).  The state is returned in both
outcomes because Rust mutates `self` in place (the skipped blank and
comment lines stay consumed even when the result is an error, and the
callers that drop the error continue from that state). -/
def PState.peekKwLine (s : PState) (strip : Bool) :
    PState × Except PErr (Option (Keyword × Option Str × Bool)) :=
  let s := s.takeEmptyOrComment
  match s.lines with
  | [] => (s, .ok none)
  | l :: _ =>
    match Keyword.parse (trimStartL l) strip with
    | some (kw, _, rest, colon) =>
      let rest? := if rest.isEmpty then none else some rest
      (s, .ok (some (kw, rest?, colon)))
    | none => (s, .error (s.mkErr ("Unknown keyword ".data ++ l)))

/-- Debug rendering of a keyword, as `{:?}` produces inside messages. -/
def Keyword.debugStr : Keyword → Str
  | .Feature => "Feature".data
  | .Scenario => "Scenario".data
  | .Background => "Background".data
  | .ScenarioOutline => "ScenarioOutline".data
  | .Scenarios => "Scenarios".data
  | .Given => "Given".data
  | .When => "When".data
  | .Then => "Then".data
  | .And => "And".data
  | .But => "But".data
  | .Asterisk => "Asterisk".data

/-- `match_kw_line` (lines 205-234), used for the `Feature` header. -/
def PState.matchKwLine (s : PState) (wanted : Keyword) (strip : Bool) :
    Except PErr ((Keyword × Option Str × Bool) × PState) :=
  match s.next with
  | (none, s) =>
    .error (s.mkErr ("Expected keyword `".data ++ wanted.debugStr
      ++ "`, got end of input".data))
  | (some l, s) =>
    let kwLine := trimStartL l
    match Keyword.parse kwLine strip with
    | some (kw, _, rest, colon) =>
      if kw ≠ wanted then
        .error (s.mkErr ("Expected keyword `".data ++ wanted.debugStr
          ++ "`, got `".data ++ kw.debugStr ++ ['`']))
      else
        let rest? := if rest.isEmpty then none else some rest
        .ok ((kw, rest?, colon), s)
    | none => .error (s.mkErr ("Unknown keyword ".data ++ kwLine))

/-- Rust `str::ends_with` on a character pattern. -/
def endsWithChar (s : Str) (c : Char) : Bool := s.getLast? = some c

/-- The `row_iter` helper of `try_datatable` (lines 237-259): split on
`|`, skip the piece before the first bar and drop the piece after the
last one, trimming every cell. -/
def rowCells (row : Str) : List Str :=
  (((row.splitOn '|').drop 1).dropLast).map trimL

/-- The column-count error message of `try_datatable`. -/
def invalidColumnMsg (expected got : Nat) : Str :=
  "Invalid column count in datatable. Expected ".data ++ natToStr expected
    ++ ", got ".data ++ natToStr got

/-- The row loop of `try_datatable` (lines 278-298). -/
def tryDatatableGo : Nat → DataTable → PState → Except PErr (DataTable × PState)
  | 0, _, s => .error (s.mkErr fuelMsg)
  | fuel + 1, t, s =>
    let s := s.takeEmptyOrComment
    match s.lines with
    | [] => .ok (t, s)
    | l :: _ =>
      let nextLine := trimL l
      if startsWithL nextLine ['|'] && endsWithChar nextLine '|' then
        let row := rowCells nextLine
        let rowLen := row.length
        match t.add_row row with
        | (.error _, t') =>
          .error (s.mkErr (invalidColumnMsg t'.header.length rowLen))
        | (.ok _, t') => tryDatatableGo fuel t' (s.next).2
      else
        .ok (t, s)

/-- `try_datatable` (lines 236-301). -/
def PState.tryDatatable (s : PState) :
    Except PErr (Option DataTable × PState) :=
  let s := s.takeEmptyOrComment
  match s.lines with
  | [] => .ok (none, s)
  | l :: _ =>
    let firstLine := trimL l
    if startsWithL firstLine ['|'] && endsWithChar firstLine '|' then
      let header := rowCells firstLine
      let s := (s.next).2
      match tryDatatableGo (s.lines.length + 1) (DataTable.new header) s with
      | .error e => .error e
      | .ok (t, s) => .ok (some t, s)
    else
      .ok (none, s)

/-- The line loop of `try_docstring` (lines 387-404): each iteration
consumes one line (incrementing the line counter before any check, as
`self.next()` does). -/
def docstringGo (indent : Str) : Str → Nat → List Str →
    Except PErr (Str × Nat × List Str)
  | _, cur, [] => .error ⟨"Unterminated newline".data, cur⟩
  | acc, cur, l :: rest =>
    let trimmed := trimL l
    if trimmed = "\"\"\"".data then
      .ok (trimL acc, cur + 1, rest)
    else if startsWithL l indent then
      docstringGo indent (acc ++ l.drop indent.length ++ ['\n']) (cur + 1) rest
    else if trimmed.isEmpty then
      docstringGo indent (acc ++ ['\n']) (cur + 1) rest
    else
      .error ⟨"Inconsistent whitespace in docstring".data, cur + 1⟩

/-- `try_docstring` (lines 367-408). -/
def PState.tryDocstring (s : PState) : Except PErr (Option Str × PState) :=
  let s := s.takeEmptyOrComment
  match s.lines with
  | [] => .ok (none, s)
  | first :: rest =>
    if trimL first = "\"\"\"".data then
      let indent := first.takeWhile isAsciiWs
      match docstringGo indent [] (s.currentLine + 1) rest with
      | .error e => .error e
      | .ok (str, cur, ls) =>
        .ok (some str, { s with currentLine := cur, lines := ls })
    else
      .ok (none, s)

/-- The step type corresponding to a step keyword; section keywords give
`none` (the `_ => break` arm of `match_steps`). -/
def stepTypeOf : Keyword → Option StepType
  | .Given => some .Given
  | .When => some .When
  | .Then => some .Then
  | .And => some .And
  | .But => some .But
  | .Asterisk => some .Asterisk
  | _ => none

/-- The at-least-one-step error message of `match_steps` (with its
unbalanced backtick as in the source). -/
def mustHaveStepMsg (inKw : Keyword) : Str :=
  ['`'] ++ inKw.debugStr ++ " Must have at least 1 step".data

/-- How the loop of `match_steps` ends when it breaks out. -/
def matchStepsPost (inKw : Keyword) (steps : List Step) (s : PState) :
    Except PErr (List Step × PState) :=
  if steps.isEmpty then .error (s.mkErr (mustHaveStepMsg inKw))
  else .ok (steps, s)

/-- The loop of `match_steps` (src/gherkin/src/parser/mod.rs lines
102-175).  The optionally compiled duplicate-step check only logs a
warning and never changes the result; it is not modelled. -/
def matchStepsGo (inKw : Keyword) :
    Nat → List Step → PState → Except PErr (List Step × PState)
  | 0, _, s => .error (s.mkErr fuelMsg)
  | fuel + 1, steps, s =>
    let s := s.takeEmptyOrComment
    match s.peekKwLine true with
    | (s, nextKw) =>
      match steps.isEmpty, nextKw with
      | true, .error _ =>
        .error (s.mkErr
          "Expected step keyword, but got invalid keyword line".data)
      | true, .ok none =>
        .error (s.mkErr "Expected step keyword, but got end of input".data)
      | false, .error _ => matchStepsPost inKw steps s
      | false, .ok none => matchStepsPost inKw steps s
      | _, .ok (some (kw, desc, _)) =>
        match stepTypeOf kw with
        | none => matchStepsPost inKw steps s
        | some ty =>
          let s := (s.next).2
          match desc with
          | none =>
            .error (s.mkErr (kw.debugStr ++ " step without description.".data))
          | some d =>
            match s.tryDatatable with
            | .error e => .error e
            | .ok (some table, s) =>
              matchStepsGo inKw fuel
                (steps ++ [Step.new ty d (some (StepData.DataTable table))]) s
            | .ok (none, s) =>
              match s.tryDocstring with
              | .error e => .error e
              | .ok (some doc, s) =>
                matchStepsGo inKw fuel
                  (steps ++ [Step.new ty d (some (StepData.DocString doc))]) s
              | .ok (none, s) =>
                matchStepsGo inKw fuel (steps ++ [Step.new ty d none]) s

/-- `match_steps`. -/
def PState.matchSteps (s : PState) (inKw : Keyword) :
    Except PErr (List Step × PState) :=
  matchStepsGo inKw (s.lines.length + 1) [] s

/-- The loop of `try_freeform_text` (lines 313-365), accumulating the
text and the captured indent. -/
def freeformGo : Nat → Option Str → Str → PState → Except PErr (Str × PState)
  | 0, _, _, s => .error (s.mkErr fuelMsg)
  | fuel + 1, indent, acc, s =>
    match s.lines with
    | [] => .ok (acc, s)
    | l :: _ =>
      let trimmed := trimL l
      if trimmed.isEmpty then freeformGo fuel indent acc (s.next).2
      else if (Keyword.parse trimmed false).isSome then .ok (acc, s)
      else
        match indent with
        | some ind =>
          if !(startsWithL l ind) then
            .error (s.mkErr "Inconsistent indentation in freeform text".data)
          else
            freeformGo fuel (some ind) (acc ++ l.drop ind.length ++ ['\n'])
              (s.next).2
        | none =>
          let ind := l.takeWhile isAsciiWs
          freeformGo fuel (some ind) (acc ++ l.drop ind.length ++ ['\n'])
            (s.next).2

/-- `try_freeform_text`. -/
def PState.tryFreeformText (s : PState) : Except PErr (Option Str × PState) :=
  let s := s.takeEmptyOrComment
  match s.lines with
  | [] => .ok (none, s)
  | _ :: _ =>
    match freeformGo (s.lines.length + 1) none [] s with
    | .error e => .error e
    | .ok (str, s) =>
      let trimmed := trimEndL str
      if !trimmed.isEmpty then .ok (some trimmed, s) else .ok (none, s)

/-- `try_background` (lines 303-311): no validation of the step types is
performed here; an error from the peek is swallowed and treated as the
absence of a background. -/
def PState.tryBackground (s : PState) : Except PErr (List Step × PState) :=
  match s.peekKwLine true with
  | (s, .ok (some (.Background, _, _))) =>
    let s := (s.next).2
    s.matchSteps .Background
  | (s, _) => .ok ([], s)

/-- The `DifferingPlaceholders` message (line 464). -/
def differingMsg : Str :=
  "Differing amount of or differently named placeholders in examples".data

/-- The missing-examples-section message (line 442). -/
def mustHaveScenariosMsg : Str :=
  "Must have at least one `Scenarios` section in a `Scenario Outline`".data

/-- The missing-data-table message (line 458). -/
def expectedTableMsg : Str := "Expected data table to follow `Examples`.".data

/-- The examples loop of `try_scenario_outline` (lines 430-472).  The
`first_placeholders` hash set is modelled by the first table's header
list, membership being equal.  `TaggedScenarios::new` cannot fail here
because `try_datatable` already enforced the row lengths; its error would
propagate as a bare message without a line number and is given the
current line. -/
def outlineExamplesGo :
    Nat → List TaggedScenarios → Option (List Str) → PState →
    Except PErr (List TaggedScenarios × PState)
  | 0, _, _, s => .error (s.mkErr fuelMsg)
  | fuel + 1, scenarios, firstPh, s =>
    let s := s.takeEmptyOrComment
    match s.tryTags with
    | .error e => .error e
    | .ok (tags, s) =>
      let s := s.takeEmptyOrComment
      match s.peekKwLine false with
      | (s, pk) =>
        match pk, scenarios.isEmpty with
        | .ok (some (.Scenarios, _, _)), _ =>
          let s := (s.next).2
          let s := s.takeEmptyOrComment
          match s.tryDatatable with
          | .error e => .error e
          | .ok (none, s) => .error (s.mkErr expectedTableMsg)
          | .ok (some table, s) =>
            let placeholders := table.header
            let values := table.rows
            match firstPh with
            | some fp =>
              if placeholders.any (fun p => !(fp.contains p)) then
                .error (s.mkErr differingMsg)
              else
                match TaggedScenarios.new tags placeholders values with
                | .error e => .error ⟨e, s.currentLine⟩
                | .ok ts =>
                  outlineExamplesGo fuel (scenarios ++ [ts]) (some fp) s
            | none =>
              match TaggedScenarios.new tags placeholders values with
              | .error e => .error ⟨e, s.currentLine⟩
              | .ok ts =>
                outlineExamplesGo fuel (scenarios ++ [ts]) (some placeholders) s
        | .error e, true => .error e
        | .ok _, true => .error (s.mkErr mustHaveScenariosMsg)
        | .error _, false => .ok (scenarios, s)
        | .ok _, false => .ok (scenarios, s)

/-- `try_scenario_outline` (lines 410-481). -/
def PState.tryScenarioOutline (s : PState) :
    Except PErr (Option ScenarioOutline × PState) :=
  match s.tryTags with
  | .error e => .error e
  | .ok (outlineTags, s) =>
    let s := s.takeEmptyOrComment
    match s.peekKwLine false with
    | (s, .ok (some (.ScenarioOutline, name, _))) =>
      let s := (s.next).2
      match s.tryFreeformText with
      | .error e => .error e
      | .ok (description, s) =>
        match s.matchSteps .ScenarioOutline with
        | .error e => .error e
        | .ok (steps, s) =>
          match outlineExamplesGo (s.lines.length + 1) [] none s with
          | .error e => .error e
          | .ok (scenarios, s) =>
            .ok (some ⟨outlineTags, name, description, steps, scenarios⟩, s)
    | (s, _) => .ok (none, s)

/-- `try_scenario` (lines 483-506). -/
def PState.tryScenario (s : PState) : Except PErr (Option Scenario × PState) :=
  match s.tryTags with
  | .error e => .error e
  | .ok (tags, s) =>
    let s := s.takeEmptyOrComment
    match s.peekKwLine false with
    | (s, .ok (some (.Scenario, name, _))) =>
      let s := (s.next).2
      match s.tryFreeformText with
      | .error e => .error e
      | .ok (description, s) =>
        match s.matchSteps .Scenario with
        | .error e => .error e
        | .ok (steps, s) => .ok (some ⟨tags, name, description, steps⟩, s)
    | (s, _) => .ok (none, s)

/-- Modelled from the spec: `Feature` (section 3) as built by
`match_feature`. -/
structure Feature where
  tags : List Str
  name : Option Str
  description : Option Str
  background : List Step
  scenarios : List Scenario
  scenario_outlines : List ScenarioOutline
deriving DecidableEq, Inhabited

/-- The body-not-recognised message of `match_feature` (line 544). -/
def expectedScenarioMsg : Str :=
  "Expected `Scenario`, `Example`, `Scenario Outline`, or `Scenario Template`.".data

/-- The body loop of `match_feature` (lines 533-547). -/
def matchFeatureGo :
    Nat → List Scenario → List ScenarioOutline → PState →
    Except PErr ((List Scenario × List ScenarioOutline) × PState)
  | 0, _, _, s => .error (s.mkErr fuelMsg)
  | fuel + 1, scenarios, outlines, s =>
    let s := s.takeEmptyOrComment
    match s.tryScenario with
    | .error e => .error e
    | .ok (some sc, s) => matchFeatureGo fuel (scenarios ++ [sc]) outlines s
    | .ok (none, s) =>
      match s.tryScenarioOutline with
      | .error e => .error e
      | .ok (some so, s) => matchFeatureGo fuel scenarios (outlines ++ [so]) s
      | .ok (none, s) =>
        if s.lines.isEmpty then .ok ((scenarios, outlines), s)
        else .error (s.mkErr expectedScenarioMsg)

/-- `match_feature` (lines 508-557). -/
def PState.matchFeature (s : PState) : Except PErr Feature :=
  let s := s.takeEmptyOrComment
  match s.tryTags with
  | .error e => .error e
  | .ok (featureTags, s) =>
    let s := s.takeEmptyOrComment
    match s.matchKwLine .Feature false with
    | .error e => .error e
    | .ok ((_, restOfLine, _), s) =>
      let featureName := restOfLine
      let s := { s with
        feature_name := some (featureName.getD "Unnamed feature".data) }
      match s.tryFreeformText with
      | .error e => .error e
      | .ok (description, s) =>
        let s := s.takeEmptyOrComment
        match s.tryBackground with
        | .error e => .error e
        | .ok (background, s) =>
          match matchFeatureGo (s.lines.length + 1) [] [] s with
          | .error e => .error e
          | .ok ((scenarios, outlines), _) =>
            .ok ⟨featureTags, featureName, description, background,
              scenarios, outlines⟩

/-- `Parser::parse_feature` (lines 560-567). -/
def parse_feature (input : Str) : Except PErr Feature :=
  let ls := rsLines input
  PState.matchFeature ⟨ls, 0, ls, none⟩

/-! ## Claim C1: placeholder validation across example blocks -/

/-- The placeholder validation of the examples loop of
`try_scenario_outline` (src/gherkin/src/parser/mod.rs lines 461-469)
stated over the successive tables' header lists: the first table seeds
`first_placeholders`; each later table raises the differing-placeholders
error exactly when one of its names is not contained in that set
(`placeholders.iter().any(|p| !first_placeholders.contains(p))`).
The hash set is modelled by the seeding header list itself, membership
being the same.  `true` means the error is raised. -/
def differingCheckGo : Option (List Str) → List (List Str) → Bool
  | _, [] => false
  | none, h :: rest => differingCheckGo (some h) rest
  | some fp, h :: rest =>
    if h.any (fun p => !(fp.contains p)) then true
    else differingCheckGo (some fp) rest

/-- The validation outcome over a whole sequence of example tables. -/
def differingCheck (headers : List (List Str)) : Bool :=
  differingCheckGo none headers

theorem differingCheckGo_some (fp : List Str) :
    ∀ rest : List (List Str),
      (differingCheckGo (some fp) rest = true
        ↔ ∃ h ∈ rest, ∃ p ∈ h, p ∉ fp) := by
  intro rest
  induction rest with
  | nil => simp [differingCheckGo]
  | cons h rest ih =>
    by_cases hany : h.any (fun p => !(fp.contains p)) = true
    · simp only [differingCheckGo, if_pos hany]
      simp only [List.any_eq_true, Bool.not_eq_true'] at hany
      obtain ⟨p, hp, hpc⟩ := hany
      simp only [true_iff]
      exact ⟨h, List.mem_cons_self h rest, p, hp, by simpa using hpc⟩
    · simp only [differingCheckGo, if_neg hany]
      rw [ih]
      have hall : ∀ p ∈ h, p ∈ fp := by simpa using hany
      constructor
      · intro ⟨g, hg, hp⟩; exact ⟨g, List.mem_cons_of_mem h hg, hp⟩
      · intro ⟨g, hg, p, hp, hpf⟩
        cases List.mem_cons.mp hg with
        | inl heq => cases heq; exact absurd (hall p hp) hpf
        | inr hmem => exact ⟨g, hmem, p, hp, hpf⟩

/-- Input whose outline has a second examples table with a strict subset
of the first table's column names. -/
def c1Input : Str :=
  ("Feature: f\nScenario Outline: o\nGiven <a> and <b>\nExamples:\n| a | b |\n| 1 | 2 |\nExamples:\n| a |\n| 3 |" : String).data

/-- The feature `c1Input` parses to. -/
def c1Expected : Feature :=
  { tags := [], name := some "f".data, description := none, background := [],
    scenarios := [],
    scenario_outlines :=
      [{ tags := [], name := some "o".data, description := none,
         steps := [Step.new StepType.Given "<a> and <b>".data none],
         scenarios :=
           [⟨[], ["a".data, "b".data], [["1".data, "2".data]]⟩,
            ⟨[], ["a".data], [["3".data]]⟩] }] }

/-- C1 fails on the code: an outline with two examples tables where the
second table's column names (`a`) are a strict subset of the first's
(`a`, `b`) parses successfully instead of being rejected with the
differing-placeholders error, although the two column-name sets are not
equal (`b` belongs to the first and not to the second). -/
theorem c1_counterexample :
    parse_feature c1Input = Except.ok c1Expected
    ∧ "b".data ∈ (["a".data, "b".data] : List Str)
    ∧ "b".data ∉ (["a".data] : List Str)
    ∧ ((c1Expected.scenario_outlines.getD 0 default).scenarios.map
        (fun b => b.placeholders))
      = [["a".data, "b".data], ["a".data]] := by
  exact ⟨rfl, by decide, by decide, by decide⟩

/-- Input with identical placeholder sets in a different column order. -/
def c1ReorderInput : Str :=
  ("Feature: f\nScenario Outline: o\nGiven <a> and <b>\nExamples:\n| a | b |\n| 1 | 2 |\nExamples:\n| b | a |\n| 3 | 4 |" : String).data

/-- The feature `c1ReorderInput` parses to. -/
def c1ReorderExpected : Feature :=
  { tags := [], name := some "f".data, description := none, background := [],
    scenarios := [],
    scenario_outlines :=
      [{ tags := [], name := some "o".data, description := none,
         steps := [Step.new StepType.Given "<a> and <b>".data none],
         scenarios :=
           [⟨[], ["a".data, "b".data], [["1".data, "2".data]]⟩,
            ⟨[], ["b".data, "a".data], [["3".data, "4".data]]⟩] }] }

/-- Input whose second examples table has a column name (`amount`) not
present in the first table (`count`). -/
def c1MismatchInput : Str :=
  ("Feature: f\nScenario Outline: o\nGiven <count> things\nExamples:\n| count |\n| 1 |\nExamples:\n| amount |\n| 2 |" : String).data

/-- C1 amended: the differing-placeholders error is raised if and only
if some table after the first contains a column name not present in the
first table's header set (containment, not set equality — strict subsets
are accepted); identical sets in a different column order are accepted,
and a genuinely new name is rejected with the differing-placeholders
message. -/
theorem c1_placeholder_check_amended :
    (∀ (first : List Str) (rest : List (List Str)),
        (differingCheck (first :: rest) = true
          ↔ ∃ h ∈ rest, ∃ p ∈ h, p ∉ first))
    ∧ parse_feature c1ReorderInput = Except.ok c1ReorderExpected
    ∧ parse_feature c1MismatchInput = Except.error ⟨differingMsg, 9⟩ := by
  refine ⟨?_, rfl, rfl⟩
  intro first rest
  simpa [differingCheck, differingCheckGo] using differingCheckGo_some first rest

/-! ## Claim C6: leading And/But step lines -/

theorem trimEndL_append_of (p d : Str) (hd : d ≠ []) (h : trimEndL d = d) :
    trimEndL (p ++ d) = p ++ d := by
  obtain ⟨c, t, hct⟩ : ∃ c t, d.reverse = c :: t := by
    cases hr : d.reverse with
    | nil =>
      exact absurd (by simpa using congrArg List.reverse hr) hd
    | cons c t => exact ⟨c, t, rfl⟩
  have hdw : d.reverse.dropWhile isUniWs = d.reverse := by
    have hrev := congrArg List.reverse h
    simpa [trimEndL] using hrev
  have hc : isUniWs c = false := by
    by_contra hcc
    simp only [Bool.not_eq_false] at hcc
    rw [hct, List.dropWhile_cons, if_pos hcc] at hdw
    have hlen := congrArg List.length hdw
    have hle := (List.dropWhile_sublist (p := isUniWs) (l := t)).length_le
    simp only [List.length_cons] at hlen
    omega
  have hd2 : d = t.reverse ++ [c] := by
    have := congrArg List.reverse hct
    simpa using this
  show ((p ++ d).reverse.dropWhile isUniWs).reverse = p ++ d
  rw [List.reverse_append, hct]
  show ((c :: (t ++ p.reverse)).dropWhile isUniWs).reverse = p ++ d
  rw [List.dropWhile_cons, if_neg (by simp [hc])]
  simp [hd2]

theorem lowerL_and_prefix (d : Str) :
    lowerL ("And ".data ++ d) = "and ".data ++ lowerL d := by
  have h1 : lowerL ("And ".data ++ d) = lowerL "And ".data ++ lowerL d := by
    simp [lowerL]
  have h2 : lowerL "And ".data = "and ".data := by decide
  rw [h1, h2]

/-- A line written `And <description>` (with a plain description: no
leading or trailing whitespace, not ending in a colon) classifies as the
`And` step keyword with that description. -/
theorem keyword_parse_and_line (d : Str)
    (hds : trimStartL d = d) (hde : trimEndL d = d)
    (hcol : d.getLast? ≠ some ':') :
    Keyword.parse ("And ".data ++ d) true
      = some (Keyword.And, "And".data, d, false) := by
  have hts : trimStartL (' ' :: d) = d := by
    show List.dropWhile isUniWs (' ' :: d) = d
    rw [List.dropWhile_cons, if_pos (by decide)]
    exact hds
  simp only [Keyword.parse, lowerL, Keyword.combinations, List.find?,
    startsWithL, List.isPrefixOf, Keyword.has_colon,
    List.map_cons, List.cons_append, List.nil_append,
    show asciiLower 'A' = 'a' from by decide,
    show asciiLower 'n' = 'n' from by decide,
    show asciiLower 'd' = 'd' from by decide,
    show asciiLower ' ' = ' ' from by decide]
  simp only [show ('e' == 'a') = false from by decide,
    show ('s' == 'a') = false from by decide,
    show ('f' == 'a') = false from by decide,
    show ('b' == 'a') = false from by decide,
    show ('g' == 'a') = false from by decide,
    show ('w' == 'a') = false from by decide,
    show ('t' == 'a') = false from by decide,
    show ('a' == 'a') = true from by decide,
    show ('n' == 'n') = true from by decide,
    show ('d' == 'd') = true from by decide,
    show (':' == ' ') = false from by decide,
    Bool.false_and, Bool.true_and, Bool.and_false, Bool.and_true]
  simp [hts, hde, endsWithColon, hcol, List.isPrefixOf]

/-- C6 amended, universal part: a step block whose first (and only) line
is `And <description>` is accepted by `match_steps`, producing one step
of type `And` with that description, instead of failing.  The
hypotheses state that the description is plain: nonempty, no leading or
trailing whitespace, and not ending in a colon. -/
theorem matchSteps_leading_and (d : Str) (hd : d ≠ [])
    (hds : trimStartL d = d) (hde : trimEndL d = d)
    (hcol : d.getLast? ≠ some ':') :
    PState.matchSteps ⟨["And ".data ++ d], 0, ["And ".data ++ d], none⟩
        Keyword.Scenario
      = Except.ok ([Step.new StepType.And d none],
          ⟨["And ".data ++ d], 1, [], none⟩) := by
  have htrimS : trimStartL ('A' :: 'n' :: 'd' :: ' ' :: d)
      = 'A' :: 'n' :: 'd' :: ' ' :: d := by
    show List.dropWhile isUniWs _ = _
    rw [List.dropWhile_cons, if_neg (by decide)]
  have htrimE : trimEndL ('A' :: 'n' :: 'd' :: ' ' :: d)
      = 'A' :: 'n' :: 'd' :: ' ' :: d := trimEndL_append_of "And ".data d hd hde
  have hkw : Keyword.parse ('A' :: 'n' :: 'd' :: ' ' :: d) true
      = some (Keyword.And, "And".data, d, false) :=
    keyword_parse_and_line d hds hde hcol
  have htake : PState.takeEmptyOrComment
        ⟨['A' :: 'n' :: 'd' :: ' ' :: d], 0,
          ['A' :: 'n' :: 'd' :: ' ' :: d], none⟩
      = ⟨['A' :: 'n' :: 'd' :: ' ' :: d], 0,
          ['A' :: 'n' :: 'd' :: ' ' :: d], none⟩ := by
    have hcond : (!(startsWithL (trimStartL ('A' :: 'n' :: 'd' :: ' ' :: d))
          ['#'])
        && !(trimEndL (trimStartL ('A' :: 'n' :: 'd' :: ' ' :: d))).isEmpty)
        = true := by
      rw [htrimS, htrimE]
      simp [startsWithL, List.isPrefixOf]
    simp only [PState.takeEmptyOrComment, takeEOCGo, hcond, if_pos]
  have hdataT : PState.tryDatatable
        ⟨['A' :: 'n' :: 'd' :: ' ' :: d], 1, [], none⟩
      = Except.ok (none, ⟨['A' :: 'n' :: 'd' :: ' ' :: d], 1, [], none⟩) := by
    simp [PState.tryDatatable, PState.takeEmptyOrComment, takeEOCGo]
  have hdocS : PState.tryDocstring
        ⟨['A' :: 'n' :: 'd' :: ' ' :: d], 1, [], none⟩
      = Except.ok (none, ⟨['A' :: 'n' :: 'd' :: ' ' :: d], 1, [], none⟩) := by
    simp [PState.tryDocstring, PState.takeEmptyOrComment, takeEOCGo]
  have hpeek : PState.peekKwLine
        ⟨['A' :: 'n' :: 'd' :: ' ' :: d], 0,
          ['A' :: 'n' :: 'd' :: ' ' :: d], none⟩ true
      = (⟨['A' :: 'n' :: 'd' :: ' ' :: d], 0,
          ['A' :: 'n' :: 'd' :: ' ' :: d], none⟩,
         Except.ok (some (Keyword.And, some d, false))) := by
    simp only [PState.peekKwLine, htake, htrimS, hkw]
    simp [List.isEmpty_iff, hd]
  have hpeek2 : PState.peekKwLine
        ⟨['A' :: 'n' :: 'd' :: ' ' :: d], 1, [], none⟩ true
      = (⟨['A' :: 'n' :: 'd' :: ' ' :: d], 1, [], none⟩, Except.ok none) := by
    simp [PState.peekKwLine, PState.takeEmptyOrComment, takeEOCGo]
  have htake2 : PState.takeEmptyOrComment
        ⟨['A' :: 'n' :: 'd' :: ' ' :: d], 1, [], none⟩
      = ⟨['A' :: 'n' :: 'd' :: ' ' :: d], 1, [], none⟩ := by
    simp [PState.takeEmptyOrComment, takeEOCGo]
  show matchStepsGo Keyword.Scenario 2 []
      ⟨['A' :: 'n' :: 'd' :: ' ' :: d], 0,
        ['A' :: 'n' :: 'd' :: ' ' :: d], none⟩
    = Except.ok ([Step.new StepType.And d none],
        ⟨['A' :: 'n' :: 'd' :: ' ' :: d], 1, [], none⟩)
  simp only [matchStepsGo, htake, hpeek, List.isEmpty_nil, stepTypeOf,
    PState.next, hdataT, hdocS, htake2, hpeek2, matchStepsPost,
    List.isEmpty_cons, List.nil_append]
  simp

/-- A line written `But <description>` (with a plain description: no
leading or trailing whitespace, not ending in a colon) classifies as the
`But` step keyword with that description. -/
theorem keyword_parse_but_line (d : Str)
    (hds : trimStartL d = d) (hde : trimEndL d = d)
    (hcol : d.getLast? ≠ some ':') :
    Keyword.parse ("But ".data ++ d) true
      = some (Keyword.But, "But".data, d, false) := by
  have hts : trimStartL (' ' :: d) = d := by
    show List.dropWhile isUniWs (' ' :: d) = d
    rw [List.dropWhile_cons, if_pos (by decide)]
    exact hds
  simp only [Keyword.parse, lowerL, Keyword.combinations, List.find?,
    startsWithL, List.isPrefixOf, Keyword.has_colon,
    List.map_cons, List.cons_append, List.nil_append,
    show asciiLower 'B' = 'b' from by decide,
    show asciiLower 'u' = 'u' from by decide,
    show asciiLower 't' = 't' from by decide,
    show asciiLower ' ' = ' ' from by decide]
  simp only [show ('e' == 'b') = false from by decide,
    show ('s' == 'b') = false from by decide,
    show ('f' == 'b') = false from by decide,
    show ('g' == 'b') = false from by decide,
    show ('w' == 'b') = false from by decide,
    show ('t' == 'b') = false from by decide,
    show ('a' == 'b') = false from by decide,
    show ('b' == 'b') = true from by decide,
    show ('a' == 'u') = false from by decide,
    show ('u' == 'u') = true from by decide,
    show ('t' == 't') = true from by decide,
    show (':' == ' ') = false from by decide,
    Bool.false_and, Bool.true_and, Bool.and_false, Bool.and_true]
  simp [hts, hde, endsWithColon, hcol, List.isPrefixOf]

/-- Counterpart of `matchSteps_leading_and` for a leading `But` line:
`match_steps` accepts it, producing one step of type `But`. -/
theorem matchSteps_leading_but (d : Str) (hd : d ≠ [])
    (hds : trimStartL d = d) (hde : trimEndL d = d)
    (hcol : d.getLast? ≠ some ':') :
    PState.matchSteps ⟨["But ".data ++ d], 0, ["But ".data ++ d], none⟩
        Keyword.Scenario
      = Except.ok ([Step.new StepType.But d none],
          ⟨["But ".data ++ d], 1, [], none⟩) := by
  have htrimS : trimStartL ('B' :: 'u' :: 't' :: ' ' :: d)
      = 'B' :: 'u' :: 't' :: ' ' :: d := by
    show List.dropWhile isUniWs _ = _
    rw [List.dropWhile_cons, if_neg (by decide)]
  have htrimE : trimEndL ('B' :: 'u' :: 't' :: ' ' :: d)
      = 'B' :: 'u' :: 't' :: ' ' :: d := trimEndL_append_of "But ".data d hd hde
  have hkw : Keyword.parse ('B' :: 'u' :: 't' :: ' ' :: d) true
      = some (Keyword.But, "But".data, d, false) :=
    keyword_parse_but_line d hds hde hcol
  have htake : PState.takeEmptyOrComment
        ⟨['B' :: 'u' :: 't' :: ' ' :: d], 0,
          ['B' :: 'u' :: 't' :: ' ' :: d], none⟩
      = ⟨['B' :: 'u' :: 't' :: ' ' :: d], 0,
          ['B' :: 'u' :: 't' :: ' ' :: d], none⟩ := by
    have hcond : (!(startsWithL (trimStartL ('B' :: 'u' :: 't' :: ' ' :: d))
          ['#'])
        && !(trimEndL (trimStartL ('B' :: 'u' :: 't' :: ' ' :: d))).isEmpty)
        = true := by
      rw [htrimS, htrimE]
      simp [startsWithL, List.isPrefixOf]
    simp only [PState.takeEmptyOrComment, takeEOCGo, hcond, if_pos]
  have hdataT : PState.tryDatatable
        ⟨['B' :: 'u' :: 't' :: ' ' :: d], 1, [], none⟩
      = Except.ok (none, ⟨['B' :: 'u' :: 't' :: ' ' :: d], 1, [], none⟩) := by
    simp [PState.tryDatatable, PState.takeEmptyOrComment, takeEOCGo]
  have hdocS : PState.tryDocstring
        ⟨['B' :: 'u' :: 't' :: ' ' :: d], 1, [], none⟩
      = Except.ok (none, ⟨['B' :: 'u' :: 't' :: ' ' :: d], 1, [], none⟩) := by
    simp [PState.tryDocstring, PState.takeEmptyOrComment, takeEOCGo]
  have hpeek : PState.peekKwLine
        ⟨['B' :: 'u' :: 't' :: ' ' :: d], 0,
          ['B' :: 'u' :: 't' :: ' ' :: d], none⟩ true
      = (⟨['B' :: 'u' :: 't' :: ' ' :: d], 0,
          ['B' :: 'u' :: 't' :: ' ' :: d], none⟩,
         Except.ok (some (Keyword.But, some d, false))) := by
    simp only [PState.peekKwLine, htake, htrimS, hkw]
    simp [List.isEmpty_iff, hd]
  have hpeek2 : PState.peekKwLine
        ⟨['B' :: 'u' :: 't' :: ' ' :: d], 1, [], none⟩ true
      = (⟨['B' :: 'u' :: 't' :: ' ' :: d], 1, [], none⟩, Except.ok none) := by
    simp [PState.peekKwLine, PState.takeEmptyOrComment, takeEOCGo]
  have htake2 : PState.takeEmptyOrComment
        ⟨['B' :: 'u' :: 't' :: ' ' :: d], 1, [], none⟩
      = ⟨['B' :: 'u' :: 't' :: ' ' :: d], 1, [], none⟩ := by
    simp [PState.takeEmptyOrComment, takeEOCGo]
  show matchStepsGo Keyword.Scenario 2 []
      ⟨['B' :: 'u' :: 't' :: ' ' :: d], 0,
        ['B' :: 'u' :: 't' :: ' ' :: d], none⟩
    = Except.ok ([Step.new StepType.But d none],
        ⟨['B' :: 'u' :: 't' :: ' ' :: d], 1, [], none⟩)
  simp only [matchStepsGo, htake, hpeek, List.isEmpty_nil, stepTypeOf,
    PState.next, hdataT, hdocS, htake2, hpeek2, matchStepsPost,
    List.isEmpty_cons, List.nil_append]
  simp

/-- Input whose only scenario's step block begins with an `And` line. -/
def c6Input : Str := ("Feature: f\nScenario: s\nAnd hello" : String).data

/-- The feature `c6Input` parses to: the `And` line became an ordinary
first step with type `And`. -/
def c6Expected : Feature :=
  { tags := [], name := some "f".data, description := none, background := [],
    scenarios :=
      [{ tags := [], name := some "s".data, description := none,
         steps := [Step.new StepType.And "hello".data none] }],
    scenario_outlines := [] }

/-- C6 fails on the code: a feature whose scenario's step block starts
with a bare-`And` step line parses successfully (the `And` line becomes
the block's first step, of type `And`) instead of failing with an
invalid-bare-keyword error. -/
theorem c6_counterexample :
    parse_feature c6Input = Except.ok c6Expected
    ∧ (c6Expected.scenarios.map (fun s => s.steps.map Step.ty))
      = [[StepType.And]] := by
  exact ⟨rfl, by decide⟩

/-- Input whose only scenario's step block begins with a `But` line. -/
def c6ButInput : Str := ("Feature: f\nScenario: s\nBut hello" : String).data

/-- The feature `c6ButInput` parses to: the `But` line became an
ordinary first step with type `But`. -/
def c6ButExpected : Feature :=
  { tags := [], name := some "f".data, description := none, background := [],
    scenarios :=
      [{ tags := [], name := some "s".data, description := none,
         steps := [Step.new StepType.But "hello".data none] }],
    scenario_outlines := [] }

/-- C6 amended: an `And` or `But` line opening a step block is not
rejected: `match_steps` accepts it as a step whose surface type (`And`
respectively `But`) is preserved, and whole features whose scenario
starts with such a line parse successfully; a step keyword line lacking
a description fails with the keyword's "step without description."
error (also for a bare leading `And`), not with an invalid-bare-keyword
error. -/
theorem c6_leading_and_amended :
    (∀ d : Str, d ≠ [] → trimStartL d = d → trimEndL d = d →
        d.getLast? ≠ some ':' →
        PState.matchSteps ⟨["And ".data ++ d], 0, ["And ".data ++ d], none⟩
            Keyword.Scenario
          = Except.ok ([Step.new StepType.And d none],
              ⟨["And ".data ++ d], 1, [], none⟩))
    ∧ (∀ d : Str, d ≠ [] → trimStartL d = d → trimEndL d = d →
        d.getLast? ≠ some ':' →
        PState.matchSteps ⟨["But ".data ++ d], 0, ["But ".data ++ d], none⟩
            Keyword.Scenario
          = Except.ok ([Step.new StepType.But d none],
              ⟨["But ".data ++ d], 1, [], none⟩))
    ∧ PState.matchSteps ⟨["And".data], 0, ["And".data], none⟩
        Keyword.Scenario
      = Except.error ⟨"And step without description.".data, 1⟩
    ∧ PState.matchSteps ⟨["Given".data], 0, ["Given".data], none⟩
        Keyword.Scenario
      = Except.error ⟨"Given step without description.".data, 1⟩
    ∧ parse_feature c6Input = Except.ok c6Expected
    ∧ parse_feature c6ButInput = Except.ok c6ButExpected := by
  exact ⟨matchSteps_leading_and, matchSteps_leading_but, rfl, rfl, rfl, rfl⟩

/-- Closed instance of `c6_leading_and_amended`. -/
theorem c6_witness :
    (PState.matchSteps
        ⟨["And hello".data], 0, ["And hello".data], none⟩ Keyword.Scenario
      = Except.ok ([Step.new StepType.And "hello".data none],
          ⟨["And hello".data], 1, [], none⟩))
    ∧ (PState.matchSteps
        ⟨["But hello".data], 0, ["But hello".data], none⟩ Keyword.Scenario
      = Except.ok ([Step.new StepType.But "hello".data none],
          ⟨["But hello".data], 1, [], none⟩)) := by
  exact ⟨c6_leading_and_amended.1 "hello".data (by decide) (by decide)
      (by decide) (by decide),
    c6_leading_and_amended.2.1 "hello".data (by decide) (by decide)
      (by decide) (by decide)⟩

/-! ## src/gherkin/src/lex.rs -/

/-- `ErrorKind` from src/gherkin/src/lex.rs. -/
inductive LexErrorKind
  | StringInconsistentIndent
  | UnclosedDocString
deriving DecidableEq, Inhabited

/-- `Error` from src/gherkin/src/lex.rs: the line count at the moment
`make_error` ran, the kind, and the whole input text. -/
structure LexError where
  line_num : Nat
  kind : LexErrorKind
  text : Str
deriving DecidableEq, Inhabited

/-- Modelled from the spec: the crate-root `Table` consumed by lex.rs and
parse.rs (absent from the provided sources; spec section 3's data-table
shape, as also exercised by the repository's tests): a header and rows. -/
structure Table where
  header : List Str
  rows : List (List Str)
deriving DecidableEq, Inhabited

/-- `TokenKind` from src/gherkin/src/lex.rs. -/
inductive TokenKind
  | Line (s : Str)
  | Comment (s : Str)
  | DocString (s : Str)
  | DataTable (t : Table)
deriving DecidableEq, Inhabited

/-- `Token` from src/gherkin/src/lex.rs.  The `text` field (always the
whole input, used only to re-extract the token's lines) is omitted. -/
structure Token where
  kind : TokenKind
  start_line : Nat
  end_line : Nat
deriving DecidableEq, Inhabited

/-- The line loop of `tokenize_docstring` (src/gherkin/src/lex.rs lines
151-175): each iteration consumes a line via `next_line` (incrementing
the line counter first); a line whose trimmed content starts with three
quotes closes the block; a line not sharing the opening indent raises
the inconsistent-indent error; end of input raises the unclosed error
at the line count reached, with all lines consumed. -/
def lexDocGo (indent : Str) : Str → Nat → List Str →
    Except (LexErrorKind × Nat) (Str × Nat × List Str)
  | _, cur, [] => .error (.UnclosedDocString, cur)
  | acc, cur, l :: rest =>
    if startsWithL (trimL l) "\"\"\"".data then
      .ok (acc, cur + 1, rest)
    else if !(startsWithL l indent) then
      .error (.StringInconsistentIndent, cur + 1)
    else
      lexDocGo indent (acc ++ l.drop indent.length ++ ['\n']) (cur + 1) rest

/-- The row loop of `tokenize_table` (lines 199-207): rows are the
maximal run of lines whose trimmed start is a bar. -/
def lexTableGo : Nat → List Str → List (List Str) × Nat × List Str
  | cur, [] => ([], cur, [])
  | cur, l :: rest =>
    if startsWithL (trimStartL l) ['|'] then
      let row := rowCells l
      let r := lexTableGo (cur + 1) rest
      (row :: r.1, r.2)
    else
      ([], cur, l :: rest)

/-- The main loop of `Lexer::lex` (lines 97-123), in priority order:
doc-string, then data table, then comment or plain line.  Fuel exceeds
the line count at the top-level call while every iteration consumes at
least one line, so the fuel branch is unreachable (it returns an empty
token list). -/
def lexGo (text : Str) : Nat → Nat → List Str → Except LexError (List Token)
  | 0, _, _ => .ok []
  | fuel + 1, cur, lines =>
    match lines with
    | [] => .ok []
    | l :: rest =>
      if startsWithL (trimStartL l) "\"\"\"".data then
        let start_line_idx := cur
        let indent := l.takeWhile isUniWs
        match lexDocGo indent [] (cur + 1) rest with
        | .error (k, n) => .error ⟨n, k, text⟩
        | .ok (str, cur', rest') =>
          match lexGo text fuel cur' rest' with
          | .error e => .error e
          | .ok toks =>
            .ok (Token.mk (.DocString str) start_line_idx cur' :: toks)
      else if startsWithL (trimStartL l) ['|'] then
        let start_line := cur
        let header := rowCells l
        let r := lexTableGo (cur + 1) rest
        match lexGo text fuel r.2.1 r.2.2 with
        | .error e => .error e
        | .ok toks =>
          .ok (Token.mk (.DataTable ⟨header, r.1⟩) start_line r.2.1 :: toks)
      else
        let line_num := cur
        let trimmed := trimL l
        let kind := if startsWithL trimmed ['#'] then
            TokenKind.Comment (trimmed.drop 1)
          else
            TokenKind.Line trimmed
        match lexGo text fuel (cur + 1) rest with
        | .error e => .error e
        | .ok toks => .ok (Token.mk kind line_num (line_num + 1) :: toks)

/-- `lex` (src/gherkin/src/lex.rs lines 60-62). -/
def lex (input : Str) : Except LexError (List Token) :=
  let ls := rsLines input
  lexGo input (ls.length + 1) 0 ls

/-- Input that opens a doc-string on its second line (index 1) and ends
without closing it. -/
def c7Input : Str := ("a\n\"\"\"\nb" : String).data

/-- C7 fails on the code: lexing `c7Input` fails with
`UnclosedDocString`, but the reported line number is 3 — the number of
lines consumed at end of input — whereas the opening triple quote is on
line index 1 (line 2 in one-based counting). -/
theorem c7_counterexample :
    lex c7Input
      = Except.error ⟨3, LexErrorKind.UnclosedDocString, c7Input⟩
    ∧ (rsLines c7Input).get? 1 = some "\"\"\"".data
    ∧ (rsLines c7Input).length = 3
    ∧ (3 : Nat) ≠ 1 ∧ (3 : Nat) ≠ 2 := by
  exact ⟨rfl, by decide, by decide, by decide, by decide⟩

/-- C7 amended: when a doc-string is opened and the input ends before a
closing line (no remaining line closes it, and all remaining lines share
the opening indent so no inconsistent-indent error fires first), lexing
fails with `UnclosedDocString`, and the reported line number is the
total number of consumed lines at end of input — `cur + lines.length`
in the loop, the input's total line count at the top level — not the
line number of the opening triple quote. -/
theorem c7_unclosed_docstring_amended :
    (∀ (indent acc : Str) (cur : Nat) (lines : List Str),
        (∀ l ∈ lines, ¬ startsWithL (trimL l) "\"\"\"".data = true
          ∧ startsWithL l indent = true) →
        lexDocGo indent acc cur lines
          = Except.error (LexErrorKind.UnclosedDocString, cur + lines.length))
    ∧ lex c7Input
      = Except.error ⟨3, LexErrorKind.UnclosedDocString, c7Input⟩ := by
  refine ⟨?_, rfl⟩
  intro indent acc cur lines
  induction lines generalizing acc cur with
  | nil => intro _; simp [lexDocGo]
  | cons l rest ih =>
    intro h
    obtain ⟨hclose, hindent⟩ := h l (List.mem_cons_self l rest)
    have hclose' : startsWithL (trimL l) "\"\"\"".data = false :=
      Bool.not_eq_true _ ▸ by simpa using hclose
    rw [lexDocGo, if_neg (by simp [hclose']), if_neg (by simp [hindent]),
      ih _ _ (fun x hx => h x (List.mem_cons_of_mem l hx))]
    simp [List.length_cons]
    omega

/-- Closed instance of `c7_unclosed_docstring_amended`. -/
theorem c7_witness :
    lexDocGo [] [] 5 ["ab".data]
      = Except.error (LexErrorKind.UnclosedDocString, 6) := by
  exact c7_unclosed_docstring_amended.1 [] [] 5 ["ab".data] (by decide)

/-! ## src/gherkin/src/parse.rs (the token-based parser draft) -/

/-- `Keyword` from src/gherkin/src/parse.rs. -/
inductive PKeyword
  | Feature | Example | Given | When | Then | And | But | Asterisk
  | Background | ScenarioOutline | Examples
deriving DecidableEq, Inhabited

/-- `Keyword::combinations` of parse.rs, in source order (note that
`background` here sits after the step keywords). -/
def PKeyword.combinations : List (PKeyword × Str) :=
  [(.Examples, "examples".data),
   (.Examples, "scenarios".data),
   (.ScenarioOutline, "scenario outline".data),
   (.ScenarioOutline, "scenario template".data),
   (.Feature, "feature".data),
   (.Example, "example".data),
   (.Example, "scenario".data),
   (.Given, "given".data),
   (.When, "when".data),
   (.Then, "then".data),
   (.And, "and".data),
   (.But, "but".data),
   (.Background, "background".data),
   (.Asterisk, "*".data)]

/-- Modelled from the spec: the crate-root `StepInput` used by parse.rs
(a doc-string or a table attached to a prompt). -/
inductive StepInput
  | String (s : Str)
  | Table (t : Table)
deriving DecidableEq, Inhabited

/-- Modelled from the spec: the crate-root `Prompt` used by parse.rs. -/
inductive Prompt
  | Bare (prompt : Str)
  | WithInput (prompt : Str) (input : StepInput)
deriving DecidableEq, Inhabited

/-- Modelled from the spec: the crate-root `Step` consumed by parse.rs
(called `TStep` here to keep it apart from the line-based parser's
`Step`): a governing type with the `And`/`But` prompts folded in. -/
structure TStep where
  ty : StepType
  ands : List Prompt
  buts : List Prompt
deriving DecidableEq, Inhabited

/-- Modelled from the spec: the crate-root `Example` block of parse.rs. -/
structure TExample where
  name : Option Str
  steps : List TStep
deriving DecidableEq, Inhabited

/-- Modelled from the spec: the crate-root `Block` of parse.rs. -/
inductive Block
  | Example (e : TExample)
deriving DecidableEq, Inhabited

/-- Modelled from the spec: the crate-root `Feature` built by parse.rs
(called `TFeature` here). -/
structure TFeature where
  language : Str
  name : Option Str
  freeform_text : Option Str
  contents : List Block
  background_and : List Prompt
  background_but : List Prompt
deriving DecidableEq, Inhabited

/-- `ErrorKind` from src/gherkin/src/parse.rs.  Two extra variants are
model artifacts with no source counterpart: `FuelOut` marks the
unreachable exhaustion of a loop's fuel (and the one reachable case of
`parse_freeform_text` spinning forever on a comment token, which this
model maps to fuel exhaustion), and `ModelPanic` marks the `panic!`/
`todo!` calls the source draft makes on `Asterisk` steps and scenario
outlines. -/
inductive TErrorKind
  | NotAFeature (k : PKeyword)
  | Unexpected (k : PKeyword)
  | Expected (wanted : List Str) (got : Token)
  | MultipleLanguageTags
  | InvalidBackgroundStep (t : StepType)
  | InvalidBareKeyword (k : PKeyword)
  | UnexpectedEof (wanted : List Str)
  | InvalidKeyword
  | Lex (k : LexErrorKind)
  | FuelOut
  | ModelPanic (msg : Str)
deriving DecidableEq, Inhabited

/-- `Error` from src/gherkin/src/parse.rs (kind, input text, line). -/
structure TError where
  kind : TErrorKind
  text : Str
  line_num : Nat
deriving DecidableEq, Inhabited

/-- `Line` from src/gherkin/src/parse.rs: classified keyword, whether a
colon directly followed the keyword, and the contents with their
had-trailing-colon flag. -/
structure PLine where
  keyword : PKeyword
  has_kw_colon : Bool
  contents : Option (Str × Bool)
deriving DecidableEq, Inhabited

/-- `Parser` state of parse.rs: the input text, the end line of the last
consumed token, and the remaining tokens of the peekable stream. -/
structure TState where
  text : Str
  current_end_line : Nat
  tokens : List Token
deriving DecidableEq, Inhabited

/-- `make_error`. -/
def TState.mkErr (s : TState) (kind : TErrorKind) : TError :=
  ⟨kind, s.text, s.current_end_line⟩

/-- `consume_token`: pop a token, recording its end line. -/
def TState.consume (s : TState) : Option Token × TState :=
  match s.tokens with
  | [] => (none, s)
  | t :: rest =>
    (some t, { s with current_end_line := t.end_line, tokens := rest })

/-- `parse_line` (src/gherkin/src/parse.rs lines 505-551); the error is
`InvalidKeyword`, attached to the current line by the caller's state. -/
def parse_lineT (line : Str) : Except Unit (Option PLine) :=
  if line.isEmpty then .ok none
  else
    let lower := lowerL line
    match PKeyword.combinations.find? (fun kv => startsWithL lower kv.2) with
    | none => .error ()
    | some (kw, pat) =>
      let contents := line.drop pat.length
      let (kwColon, contents) :=
        if contents.head? = some ':' then (true, contents.drop 1)
        else (false, contents)
      let contents := trimL contents
      let contents? :=
        if endsWithChar contents ':' then
          let c := contents.take (contents.length - 1)
          if c.isEmpty then none else some (c, true)
        else if contents.isEmpty then none
        else some (contents, false)
      .ok (some ⟨kw, kwColon, contents?⟩)

/-- Whether a keyword/colon combination is acceptable in `peek_kw_line`'s
placement check (lines 440-462): section keywords with a colon, step
keywords without. -/
def pkwColonOk : PKeyword → Bool → Bool
  | .Feature, c | .Example, c | .Background, c | .ScenarioOutline, c
  | .Examples, c => c
  | .Given, c | .When, c | .Then, c | .And, c | .But, c | .Asterisk, c => !c

/-- `peek_kw_line` (lines 417-473): skip comments, empty lines and lines
with wrong colon placement (consuming them); an unclassifiable line is
`InvalidKeyword`; a non-line token is consumed and reported; end of
tokens is `UnexpectedEof`.  State is returned in both outcomes because
the consumption is in-place mutation in Rust. -/
def peekKwLineT : Nat → TState → TState × Except TError PLine
  | 0, s => (s, .error (s.mkErr .FuelOut))
  | fuel + 1, s =>
    match s.tokens with
    | [] => (s, .error (s.mkErr (.UnexpectedEof ["`Line`".data])))
    | t :: rest =>
      match t.kind with
      | .Line line =>
        match parse_lineT line with
        | .error () => (s, .error (s.mkErr .InvalidKeyword))
        | .ok none =>
          peekKwLineT fuel
            { s with current_end_line := t.end_line, tokens := rest }
        | .ok (some pl) =>
          if pkwColonOk pl.keyword pl.has_kw_colon then (s, .ok pl)
          else
            peekKwLineT fuel
              { s with current_end_line := t.end_line, tokens := rest }
      | .Comment _ =>
        peekKwLineT fuel
          { s with current_end_line := t.end_line, tokens := rest }
      | _ =>
        let s' : TState :=
          { s with current_end_line := t.end_line, tokens := rest }
        (s', .error (s'.mkErr (.Expected ["`Line`".data] t)))

/-- `match_kw_line` (lines 407-415): peek, then consume. -/
def matchKwLineT (s : TState) : TState × Except TError PLine :=
  match peekKwLineT (s.tokens.length + 1) s with
  | (s', .error e) => (s', .error e)
  | (s', .ok pl) => ((s'.consume).2, .ok pl)

/-- `peek_input` (lines 475-503): skip comments; a doc-string or table
token is returned WITHOUT being consumed; any other token — including
the next step's `Line` — is CONSUMED and reported as `Expected`. -/
def peekInputT : Nat → TState → TState × Except TError StepInput
  | 0, s => (s, .error (s.mkErr .FuelOut))
  | fuel + 1, s =>
    match s.tokens with
    | [] => (s, .error (s.mkErr (.UnexpectedEof ["`StepInput`".data])))
    | t :: rest =>
      match t.kind with
      | .Comment _ =>
        peekInputT fuel
          { s with current_end_line := t.end_line, tokens := rest }
      | .DataTable tb => (s, .ok (.Table tb))
      | .DocString str => (s, .ok (.String str))
      | .Line _ =>
        let s' : TState :=
          { s with current_end_line := t.end_line, tokens := rest }
        (s', .error (s'.mkErr
          (.Expected ["`DocString".data, "`DataTable`".data] t)))

/-- The `match self.peek_input(tokens).ok()` pattern of `parse_steps`:
on success the input token is consumed; the error is discarded but its
state mutation (possibly a swallowed `Line` token) persists. -/
def takeStepInput (s : TState) : TState × Option StepInput :=
  match peekInputT (s.tokens.length + 1) s with
  | (s', .ok input) => ((s'.consume).2, some input)
  | (s', .error _) => (s', none)

/-- The inner `And`/`But` loop of `parse_steps` (src/gherkin/src/parse.rs
lines 352-395): `while let Ok(line)` — an error from the peek ends the
loop (keeping its state mutations); a bare `And`/`But` without contents
is `InvalidBareKeyword`; an `Asterisk` line panics in the source. -/
def stepContGo :
    Nat → TState → List Prompt → List Prompt →
    Except TError (TState × List Prompt × List Prompt)
  | 0, s, _, _ => .error (s.mkErr .FuelOut)
  | fuel + 1, s, ands, buts =>
    match peekKwLineT (s.tokens.length + 1) s with
    | (s', .error _) => .ok (s', ands, buts)
    | (s', .ok line) =>
      match line.keyword with
      | .And =>
        let s2 := (s'.consume).2
        match line.contents with
        | none => .error (s2.mkErr (.InvalidBareKeyword .And))
        | some (c, _) =>
          match takeStepInput s2 with
          | (s3, some input) =>
            stepContGo fuel s3 (ands ++ [Prompt.WithInput c input]) buts
          | (s3, none) =>
            stepContGo fuel s3 (ands ++ [Prompt.Bare c]) buts
      | .But =>
        let s2 := (s'.consume).2
        match line.contents with
        | none => .error (s2.mkErr (.InvalidBareKeyword .But))
        | some (c, _) =>
          match takeStepInput s2 with
          | (s3, some input) =>
            stepContGo fuel s3 ands (buts ++ [Prompt.WithInput c input])
          | (s3, none) =>
            stepContGo fuel s3 ands (buts ++ [Prompt.Bare c])
      | .Asterisk =>
        .error (s'.mkErr (.ModelPanic "Placeholder not supported yet".data))
      | _ => .ok (s', ands, buts)

/-- The step types accepted as block heads by `parse_steps` of parse.rs
(`Asterisk` panics there and is handled separately). -/
def stepTypeOfP : PKeyword → Option StepType
  | .Given => some .Given
  | .When => some .When
  | .Then => some .Then
  | _ => none

/-- The outer loop of `parse_steps` (lines 318-405). -/
def parseStepsGo : Nat → TState → List TStep → Except TError (List TStep × TState)
  | 0, s, _ => .error (s.mkErr .FuelOut)
  | fuel + 1, s, steps =>
    match peekKwLineT (s.tokens.length + 1) s with
    | (s', .error _) => .ok (steps, s')
    | (s', .ok line) =>
      match stepTypeOfP line.keyword with
      | none =>
        if line.keyword = .Asterisk then
          .error (s'.mkErr (.ModelPanic "Placeholder not supported yet".data))
        else
          .ok (steps, s')
      | some ty =>
        let s2 := (s'.consume).2
        match line.contents with
        | none => .error (s2.mkErr (.InvalidBareKeyword line.keyword))
        | some (c, _) =>
          let (s3, inp) := takeStepInput s2
          let first := match inp with
            | some input => Prompt.WithInput c input
            | none => Prompt.Bare c
          match stepContGo (s3.tokens.length + 1) s3 [first] [] with
          | .error e => .error e
          | .ok (s4, ands, buts) =>
            parseStepsGo fuel s4 (steps ++ [⟨ty, ands, buts⟩])

/-- `parse_steps`. -/
def parseStepsT (s : TState) : Except TError (List TStep × TState) :=
  parseStepsGo (s.tokens.length + 1) s []

/-- The background validation and folding of `parse_background`
(src/gherkin/src/parse.rs lines 289-310): the first step whose governing
type is not `Given` is `InvalidBackgroundStep` with that type; otherwise
the `and`/`but` prompts of the `Given` steps are flattened. -/
def bgValidate (steps : List TStep) :
    Except StepType (List Prompt × List Prompt) :=
  match steps.find? (fun st => st.ty != StepType.Given) with
  | some st => .error st.ty
  | none =>
    let givens := steps.filterMap fun g =>
      if g.ty = StepType.Given then some (g.ands, g.buts) else none
    .ok (givens.flatMap (fun p => p.1), givens.flatMap (fun p => p.2))

/-- `parse_background` (lines 273-316): a peek error propagates (`?`);
a non-`Background` keyword line means no background. -/
def parseBackgroundT (s : TState) :
    Except TError ((List Prompt × List Prompt) × TState) :=
  match peekKwLineT (s.tokens.length + 1) s with
  | (_, .error e) => .error e
  | (s', .ok line) =>
    if line.keyword = .Background then
      let s2 := (s'.consume).2
      match parseStepsT s2 with
      | .error e => .error e
      | .ok (steps, s3) =>
        match bgValidate steps with
        | .error ty => .error (s3.mkErr (.InvalidBackgroundStep ty))
        | .ok r => .ok (r, s3)
    else
      .ok (([], []), s')

/-- The loop of `parse_freeform_text` (lines 224-271).  A `Comment`
token is neither consumed nor skipped in the source, which therefore
loops forever on it; the model's fuel exhaustion stands in for that
divergence. -/
def parseFreeformGo : Nat → TState → Str → Except TError (Str × TState)
  | 0, s, _ => .error (s.mkErr .FuelOut)
  | fuel + 1, s, acc =>
    match s.tokens with
    | [] => .ok (acc, s)
    | t :: rest =>
      match t.kind with
      | .Line line =>
        match parse_lineT line with
        | .ok (some pl) =>
          if pl.keyword = .Background ∨ pl.keyword = .Example
              ∨ pl.keyword = .ScenarioOutline then
            .ok (acc, s)
          else
            parseFreeformGo fuel
              { s with current_end_line := t.end_line, tokens := rest }
              (acc ++ trimStartL line ++ ['\n'])
        | _ =>
          parseFreeformGo fuel
            { s with current_end_line := t.end_line, tokens := rest }
            (acc ++ trimStartL line ++ ['\n'])
      | .Comment _ => parseFreeformGo fuel s acc
      | _ =>
        let s' : TState :=
          { s with current_end_line := t.end_line, tokens := rest }
        .error (s'.mkErr (.Expected
          ["freeform text".data, "`Background`".data, "`Example`".data,
           "`ScenarioOutline`".data] t))

/-- `parse_freeform_text`. -/
def parseFreeformT (s : TState) : Except TError (Option Str × TState) :=
  match parseFreeformGo (s.tokens.length + 1) s [] with
  | .error e => .error e
  | .ok (acc, s') =>
    let trimmed := trimL acc
    if trimmed.isEmpty then .ok (none, s') else .ok (some trimmed, s')

/-- Rust `str::split_once`: split at the first occurrence of `c`. -/
def splitOnce (c : Char) : Str → Option (Str × Str)
  | [] => none
  | x :: rest =>
    if x = c then some ([], rest)
    else
      match splitOnce c rest with
      | some (before, after) => some (x :: before, after)
      | none => none

/-- The language extraction of `parse` (lines 149-166): a comment of the
form `language:<code>` (code trimmed). -/
def langOf (t : Token) : Option Str :=
  match t.kind with
  | .Comment c =>
    match splitOnce ':' c with
    | some (before, after) =>
      if before = "language".data then some (trimL after) else none
    | none => none
  | _ => none

/-- The body loop of `parse` (lines 183-212). -/
def parseBlocksGo : Nat → TState → List Block →
    Except TError (List Block × TState)
  | 0, s, _ => .error (s.mkErr .FuelOut)
  | fuel + 1, s, blocks =>
    match peekKwLineT (s.tokens.length + 1) s with
    | (_, .error e) => .error e
    | (s', .ok line) =>
      match s'.consume with
      | (none, s2) => .error (s2.mkErr .FuelOut)
      | (some tok, s2) =>
        match line.keyword with
        | .Example =>
          let name := line.contents.map (fun p => p.1)
          match parseStepsT s2 with
          | .error e => .error e
          | .ok (steps, s3) =>
            let blocks := blocks ++ [Block.Example ⟨name, steps⟩]
            match s3.tokens with
            | [] => .ok (blocks, s3)
            | _ :: _ => parseBlocksGo fuel s3 blocks
        | .ScenarioOutline =>
          .error (s2.mkErr (.ModelPanic "Scenario outline not supported".data))
        | .Background => .error (s2.mkErr (.Unexpected .Background))
        | _ =>
          .error (s2.mkErr
            (.Expected ["`Example`".data, "`Scenario Outline`".data] tok))

/-- `Parser::parse` (lines 148-222). -/
def parseT (text : Str) (tokens : List Token) : Except TError TFeature :=
  let langs := tokens.filterMap langOf
  if langs.length > 1 then .error ⟨.MultipleLanguageTags, text, 0⟩
  else
    let language := langs.headD "en".data
    let s0 : TState := ⟨text, 0, tokens⟩
    match matchKwLineT s0 with
    | (_, .error e) => .error e
    | (s1, .ok firstLine) =>
      if firstLine.keyword ≠ PKeyword.Feature then
        .error (s1.mkErr (.NotAFeature firstLine.keyword))
      else
        let featureName := firstLine.contents.map (fun p => p.1)
        match parseFreeformT s1 with
        | .error e => .error e
        | .ok (freeform, s2) =>
          match parseBackgroundT s2 with
          | .error e => .error e
          | .ok ((bgAnd, bgBut), s3) =>
            match parseBlocksGo (s3.tokens.length + 1) s3 [] with
            | .error e => .error e
            | .ok (blocks, _) =>
              .ok ⟨language, featureName, freeform, blocks, bgAnd, bgBut⟩

/-- `parse_feature` of parse.rs (lines 100-103): lex, then parse. -/
def parse_featureT (text : Str) : Except TError TFeature :=
  match lex text with
  | .error e => .error ⟨.Lex e.kind, e.text, e.line_num⟩
  | .ok tokens => parseT text tokens

/-! ## Claim C2: background step validation -/

/-- Feature text whose background has a `When` step directly after the
`Given` step line. -/
def c2FailInput : Str :=
  ("Feature:\nBackground:\nGiven x\nWhen y\nExample: e\nGiven z" : String).data

/-- What parse.rs produces for `c2FailInput`: the parse SUCCEEDS — the
`When y` line was consumed by `peek_input`'s error path while looking
for the `Given` step's data attachment, so the background validation
never sees it. -/
def c2FailFeature : TFeature :=
  { language := "en".data, name := none, freeform_text := none,
    contents :=
      [Block.Example ⟨some "e".data,
        [⟨StepType.Given, [Prompt.Bare "z".data], []⟩]⟩],
    background_and := [Prompt.Bare "x".data],
    background_but := [] }

/-- The same background but with a blank line before `When y`, so that
`peek_input` swallows the blank line instead and the `When` step
survives into the parsed background. -/
def c2WhenInput : Str :=
  ("Feature:\nBackground:\nGiven x\n\nWhen y\nExample: e\nGiven z" : String).data

/-- A background of `Given` and `And` steps (the `And` carrying a
doc-string so the following line is not swallowed), followed by a
scenario. -/
def c2OkInput : Str :=
  ("Feature:\nBackground:\nGiven x\n\nAnd y:\n\"\"\"\nd\n\"\"\"\nExample: e\nGiven z" : String).data

/-- What parse.rs produces for `c2OkInput`: success, with the `And`
prompt folded into the `Given` background step. -/
def c2OkFeature : TFeature :=
  { language := "en".data, name := none, freeform_text := none,
    contents :=
      [Block.Example ⟨some "e".data,
        [⟨StepType.Given, [Prompt.Bare "z".data], []⟩]⟩],
    background_and :=
      [Prompt.Bare "x".data,
       Prompt.WithInput "y".data (StepInput.String "d\n".data)],
    background_but := [] }

/-- C2: the background validation of parse.rs is exactly as the claim
states it — over the steps it actually receives: all-`Given` steps fold
their `And`/`But` prompts and succeed, and the first non-`Given` step
makes it fail with `InvalidBackgroundStep` of that step's type; end to
end, a background whose `When` step survives tokenisation fails with
`InvalidBackgroundStep(When)` and a `Given`/`And` background parses.
But the claim is FALSE of the code as a whole: on `c2FailInput`, where
`When y` directly follows `Given x`, `peek_input` consumes the `When`
line on its error path, the step never reaches the validation, and
`parse_feature` returns `Ok` — contradicting both the claim and the
repository's own tests, which expect such step lines to survive. -/
theorem c2_background_validation :
    (∀ steps : List TStep, (∀ s ∈ steps, s.ty = StepType.Given) →
        bgValidate steps
          = Except.ok (steps.flatMap (fun g => g.ands),
              steps.flatMap (fun g => g.buts)))
    ∧ (∀ (pre post : List TStep) (st : TStep), st.ty ≠ StepType.Given →
        (∀ s ∈ pre, s.ty = StepType.Given) →
        bgValidate (pre ++ st :: post) = Except.error st.ty)
    ∧ parse_featureT c2WhenInput
      = Except.error ⟨TErrorKind.InvalidBackgroundStep StepType.When,
          c2WhenInput, 7⟩
    ∧ parse_featureT c2OkInput = Except.ok c2OkFeature
    ∧ parse_featureT c2FailInput = Except.ok c2FailFeature := by
  refine ⟨?_, ?_, rfl, rfl, rfl⟩
  · intro steps hall
    unfold bgValidate
    have hfind : steps.find? (fun st => st.ty != StepType.Given) = none := by
      rw [List.find?_eq_none]
      intro s hs
      simp [hall s hs]
    rw [hfind]
    have hfm : steps.filterMap (fun g =>
        if g.ty = StepType.Given then some (g.ands, g.buts) else none)
        = steps.map (fun g => (g.ands, g.buts)) := by
      clear hfind
      induction steps with
      | nil => rfl
      | cons a l ih =>
        rw [List.filterMap_cons, if_pos (hall a (List.mem_cons_self a l)),
          List.map_cons,
          ih (fun s hs => hall s (List.mem_cons_of_mem a hs))]
    rw [hfm]
    simp [List.flatMap_map]
  · intro pre post st hst hpre
    unfold bgValidate
    have hfind : (pre ++ st :: post).find? (fun s => s.ty != StepType.Given)
        = some st := by
      induction pre with
      | nil =>
        have h1 : (st.ty != StepType.Given) = true := by simpa using hst
        simp [List.find?_cons, h1]
      | cons a l ih =>
        have h2 : (a.ty != StepType.Given) = false := by
          simp [hpre a (List.mem_cons_self a l)]
        simp only [List.cons_append, List.find?_cons, h2]
        exact ih (fun s hs => hpre s (List.mem_cons_of_mem a hs))
    rw [hfind]

/-- Closed instance of `c2_background_validation`. -/
theorem c2_witness :
    bgValidate [⟨StepType.Given, [Prompt.Bare "x".data], []⟩,
                ⟨StepType.When, [Prompt.Bare "y".data], []⟩]
      = Except.error StepType.When := by
  exact c2_background_validation.2.1
    [⟨StepType.Given, [Prompt.Bare "x".data], []⟩] []
    ⟨StepType.When, [Prompt.Bare "y".data], []⟩ (by decide) (by decide)
